import Mathlib

/-!
Shallow embedding of the core of `log_pipe_viewer.py` (the real-time log
dashboard): the entry parser, the host registry, the visibility filter, the
bounded entry buffer with its live per-(host,level) count table, the curses
log pad (render surface) and the health monitor, together with proofs of the
specified invariants and scenarios.

Modelling conventions, used throughout:
* Python operations that can raise an exception (list indexing out of range,
  `int()` on a non-numeric string, curses `addstr` outside the pad) are
  embedded as `Option`-returning functions; `none` means the Python code
  raises.  The surrounding program has no handler for these exceptions, so a
  `none` models a crash of the process.
* Python object identity (the `entry is self.entries[0]` test in
  `CursesLogPad.remove_entry`) is modelled by tagging every entry appended to
  the viewer buffer with a unique serial number: each `Entry(...)` call in
  Python allocates a fresh object, so distinct appends are never identical.
* Regular-expression substitution (`re.sub` over the `REPLACEMENTS` table) is
  abstracted as an opaque list of `String → String` functions, applied in the
  declared order, each to the result of the previous one; the claims under
  proof only concern that order, never the regex semantics themselves.
* curses color attributes and all pure drawing calls that write to a curses
  window but touch no modelled state are omitted.
-/

/-! ### Python primitive semantics -/

/-- Python list subscription `l[i]` with negative-index support:
`l[i]` for `0 ≤ i < len` is the plain element, `-len ≤ i < 0` counts from the
end, anything else raises `IndexError` (modelled as `none`). -/
def pyGet {α : Type} (l : List α) (i : Int) : Option α :=
  if i ≥ 0 then l.get? i.toNat
  else if -i ≤ (l.length : Int) then l.get? (l.length - (-i).toNat)
  else none

/-- Python list item assignment `l[i] = v` with the same index semantics as
`pyGet`; out-of-range raises (modelled as `none`). -/
def pySet {α : Type} (l : List α) (i : Int) (v : α) : Option (List α) :=
  if i ≥ 0 then (if i.toNat < l.length then some (l.set i.toNat v) else none)
  else if -i ≤ (l.length : Int) then some (l.set (l.length - (-i).toNat) v)
  else none

/-- Characters treated as whitespace by Python `str.strip()` (ASCII subset;
the log lines involved are ASCII). -/
def pyIsSpace (c : Char) : Bool :=
  c = ' ' ∨ c = '\t' ∨ c = '\n' ∨ c = '\r' ∨ c = '\x0b' ∨ c = '\x0c'

/-- Python `s.strip()`: removes leading and trailing whitespace. -/
def pyStrip (s : String) : String :=
  ⟨((s.data.dropWhile pyIsSpace).reverse.dropWhile pyIsSpace).reverse⟩

/-- Python `s.strip(chars)`: removes leading and trailing characters drawn
from `chars`. -/
def pyStripChars (s : String) (chars : String) : String :=
  ⟨((s.data.dropWhile (chars.data.contains ·)).reverse.dropWhile
      (chars.data.contains ·)).reverse⟩

/-- Auxiliary worker for `pySplit`, operating on character lists: `budget`
is the number of splits still allowed, `acc` the (reversed) current field. -/
def pySplitAux (sep : Char) : List Char → Nat → List Char → List (List Char)
  | [], _, acc => [acc.reverse]
  | c :: rest, budget, acc =>
    if c = sep ∧ budget > 0 then acc.reverse :: pySplitAux sep rest (budget - 1) []
    else pySplitAux sep rest budget (c :: acc)

/-- Python `s.split(sep, maxsplit)` for a one-character separator: splits on
at most `maxsplit` occurrences of `sep`, so the result has at most
`maxsplit + 1` fields; the empty string yields `[""]`. -/
def pySplit (s : String) (sep : Char) (maxsplit : Nat) : List String :=
  (pySplitAux sep s.data maxsplit []).map fun cs => ⟨cs⟩

/-- Python `int(s)`: optional surrounding whitespace, an optional sign, then
one or more decimal digits (digit-group underscores are not modelled; none of
the log levels involved use them).  A non-conforming string raises
`ValueError`, modelled as `none`. -/
def pyInt? (s : String) : Option Int :=
  let t := (pyStrip s).data
  let (sign, digits) :=
    match t with
    | '-' :: rest => ((-1 : Int), rest)
    | '+' :: rest => ((1 : Int), rest)
    | rest => ((1 : Int), rest)
  if digits ≠ [] ∧ digits.all (·.isDigit) then
    some (sign * (digits.foldl (fun n c => 10 * n + (c.toNat - '0'.toNat)) 0 : Nat))
  else none

/-- Python slice `s[:n]` for an `Int` bound: a negative stop counts from the
end (`s[:-k]` drops the last `k` characters), clamped at zero. -/
def pySliceTo (s : String) (n : Int) : String :=
  if n ≥ 0 then ⟨s.data.take n.toNat⟩
  else ⟨s.data.take (s.length - (-n).toNat)⟩

/-- Python slice `s[n:]` for a non-negative bound (the source only uses
literal non-negative starts). -/
def pyDropFrom (s : String) (n : Nat) : String :=
  ⟨s.data.drop n⟩

/-! ### Constants of the source (`log_pipe_viewer.py` module header) -/

def BUFFER_LENGTH : Nat := 3000
def HOST_INDEX_COUNT : Nat := 9
def HEALTH_INTERVAL : Int := 15
def MIN_PANEL_HEIGHT : Nat := 34

/-! ### Hosts registry -/

/-- Fixed rename table applied before registration
(`HOST_REPLACEMENTS = \x7b'puck.jsankey.com': 'puck'\x7d`). -/
def HOST_REPLACEMENTS : List (String × String) := [("puck.jsankey.com", "puck")]

/-- Python `HOST_REPLACEMENTS.get(raw_host_name, raw_host_name)`. -/
def applyHostReplacements (raw : String) : String :=
  ((HOST_REPLACEMENTS.lookup raw).getD raw)

/-- Simple class to store the set of hosts and their indexes.  The source
keeps both `list` and a `name_to_index` dictionary; the dictionary always
equals the index map of the list, so only the list is carried and the lookup
is performed positionally. -/
structure Hosts where
  list : List String
deriving DecidableEq

/-- Positional lookup modelling the `name_to_index` dictionary. -/
def listIndexOf (name : String) : List String → Option Nat
  | [] => none
  | x :: xs => if x = name then some 0 else (listIndexOf name xs).map (· + 1)

/-- `Hosts.get_index`: applies the rename table, then returns the index of
the resulting name, appending it to the list first if it is absent. -/
def Hosts.get_index (h : Hosts) (raw_host_name : String) : Hosts × Nat :=
  let name := applyHostReplacements raw_host_name
  match listIndexOf name h.list with
  | some i => (h, i)
  | none => (⟨h.list ++ [name]⟩, h.list.length)

/-- Initial registry contents (`HOSTS = Hosts([...])`). -/
def hostsInit : Hosts :=
  ⟨["ariel", "puck", "mab", "switch", "umbriel", "debbie", "vicki"]⟩

/-! ### Levels -/

/-- An rsyslog level; `index` records construction order exactly as the
source's `Level._next_idx` counter does.  The curses color fields are
omitted (pure drawing state). -/
structure Level where
  index : Nat
  name : String
deriving DecidableEq

/-- The eight rsyslog levels, in declared order (`LEVELS`), rank 0 most
severe. -/
def LEVELS : List Level :=
  [⟨0, "emerg"⟩, ⟨1, "alert"⟩, ⟨2, "crit"⟩, ⟨3, "err"⟩,
   ⟨4, "warning"⟩, ⟨5, "notice"⟩, ⟨6, "info"⟩, ⟨7, "debug"⟩]

/-- The sentinel level constructed after `LEVELS` (`NO_LEVEL`), used only
for drawing hosts with no buffered entries. -/
def NO_LEVEL : Level := ⟨8, "n/a"⟩

/-! ### Entry -/

/-- Defines a single log entry read from the pipe, or a fixed error string.
`host` caches `HOSTS.list[host_idx]` exactly as `Entry.__init__` does. -/
structure Entry where
  time : String
  host : String
  host_idx : Nat
  facility : String
  level : Level
  tag : String
  msg : String
deriving DecidableEq

/-- `Entry.__init__`: resolves `host` from the registry list and `level`
from `LEVELS[level_idx]` (Python indexing, so a negative `level_idx` counts
from the end and a far out-of-range one raises). -/
def Entry.make (hosts : Hosts) (timestr : String) (host_idx : Nat)
    (facility : String) (level_idx : Int) (tag msg : String) : Option Entry := do
  let host ← pyGet hosts.list host_idx
  let level ← pyGet LEVELS level_idx
  some ⟨timestr, host, host_idx, facility, level, tag, msg⟩

/-- `Entry.from_error_text`: a synthetic entry stamped `now` (the source
formats `datetime.now()`; the formatted string is taken as a parameter),
registered under the dedicated `error` host, at level 0.  Returns the
updated registry together with the entry (`none` models a raise, which is
impossible here, as proved below). -/
def Entry.from_error_text (hosts : Hosts) (now : String) (facility text : String) :
    Hosts × Option Entry :=
  let (hosts', idx) := hosts.get_index "error"
  (hosts', Entry.make hosts' now idx facility 0 "" ("ERROR: " ++ text))

/-- `Entry.from_log_line`: splits the raw line on `|` with maxsplit 9; on a
field-count mismatch returns the synthetic parse-error entry, otherwise maps
the eight fields into an `Entry`, stripping the date-space from the time,
stripping `:` from the tag, and applying the substitution pipeline `subs`
(the abstracted `REPLACEMENTS` table) to the stripped message in order. -/
def Entry.from_log_line (subs : List (String → String)) (hosts : Hosts)
    (now : String) (logline : String) : Hosts × Option Entry :=
  match pySplit logline '|' 9 with
  | [i0, i1, _i2, i3, i4, _i5, i6, i7] =>
    let message := pyStrip i7
    let timestr := pySliceTo i0 3 ++ pyDropFrom i0 4
    let message := subs.foldl (fun m f => f m) message
    let (hosts', hidx) := hosts.get_index i1
    match pyInt? i4 with
    | none => (hosts', none)
    | some level_idx =>
      (hosts', Entry.make hosts' timestr hidx i3 level_idx (pyStripChars i6 ":") message)
  | _ => Entry.from_error_text hosts now "parse" logline

/-! ### Visibility -/

/-- Defines the current visibility state of each host and level.
`limit_level` is the highest (least severe) visible level index; the
constructor sets all nine host slots visible and all levels visible. -/
structure Visibility where
  host_index_visible : List Bool
  limit_level : Int
deriving DecidableEq

/-- `Visibility.__init__`: all hosts visible, `set_all_levels()` applied. -/
def visInit : Visibility :=
  ⟨List.replicate HOST_INDEX_COUNT true, (LEVELS.length : Int) - 1⟩

/-- Makes one more severity visible (`max(0, limit_level - 1)`). -/
def Visibility.increase_level (v : Visibility) : Visibility :=
  { v with limit_level := max 0 (v.limit_level - 1) }

/-- Makes one less severity visible (`min(len(LEVELS) - 1, limit_level + 1)`). -/
def Visibility.decrease_level (v : Visibility) : Visibility :=
  { v with limit_level := min ((LEVELS.length : Int) - 1) (v.limit_level + 1) }

/-- Makes all severities visible. -/
def Visibility.set_all_levels (v : Visibility) : Visibility :=
  { v with limit_level := (LEVELS.length : Int) - 1 }

/-- Toggles one host slot.  The source guard is
`if host_index in range(HOST_INDEX_COUNT + 1)`, which admits indices 0..9
even though the slot list has only 9 elements; the subsequent subscription
therefore raises `IndexError` at index 9 (modelled as `none`), while indices
outside 0..9 are silently ignored. -/
def Visibility.toggle_host (v : Visibility) (host_index : Int) : Option Visibility :=
  if 0 ≤ host_index ∧ host_index < (HOST_INDEX_COUNT : Int) + 1 then do
    let b ← pyGet v.host_index_visible host_index
    let l ← pySet v.host_index_visible host_index (!b)
    some { v with host_index_visible := l }
  else some v

/-- Makes only the selected host visible; same off-by-one guard as
`toggle_host`, and at index 9 the slot list has already been reset to
all-`False` when the assignment raises (the raise kills the process, so the
partially mutated state is never observed). -/
def Visibility.exclusive_host (v : Visibility) (host_index : Int) : Option Visibility :=
  if 0 ≤ host_index ∧ host_index < (HOST_INDEX_COUNT : Int) + 1 then do
    let l ← pySet (List.replicate HOST_INDEX_COUNT false) host_index true
    some { v with host_index_visible := l }
  else some v

/-- Makes all hosts visible. -/
def Visibility.set_all_hosts (v : Visibility) : Visibility :=
  { v with host_index_visible := List.replicate HOST_INDEX_COUNT true }

/-- `is_host_visible`: a bare list subscription, so a host index at or
beyond the slot count raises (modelled as `none`). -/
def Visibility.is_host_visible (v : Visibility) (host_index : Int) : Option Bool :=
  pyGet v.host_index_visible host_index

/-- `is_level_visible`: `level <= limit_level`. -/
def Visibility.is_level_visible (v : Visibility) (level : Int) : Bool :=
  level ≤ v.limit_level

/-- `is_entry_visible`: host visibility `and` level visibility (Python
short-circuits, but the level test is total, so sequencing is equivalent). -/
def Visibility.is_entry_visible (v : Visibility) (e : Entry) : Option Bool := do
  let hb ← v.is_host_visible e.host_idx
  some (hb && v.is_level_visible e.level.index)

/-- Boolean form of `is_entry_visible` used to state subsequence invariants:
true exactly when the call returns `True` without raising. -/
def visibleB (v : Visibility) (e : Entry) : Bool :=
  v.is_entry_visible e == some true

/-! ### Status-panel count table -/

/-- The status panel's 2D count table, `counts[host][level]`, host-major,
`HOST_INDEX_COUNT` rows of `len(LEVELS)` cells. -/
abbrev Counts := List (List Int)

/-- `CursesStatusWin.__init__` count table: all zeros. -/
def countsInit : Counts :=
  List.replicate HOST_INDEX_COUNT (List.replicate LEVELS.length (0 : Int))

/-- Reads `counts[h][l]` (both indices are non-negative in every call
site, so plain positional lookup models the Python subscription). -/
def countsGet (c : Counts) (h l : Nat) : Option Int := do
  let row ← c.get? h
  row.get? l

/-- In-place update `counts[h][l] = f (counts[h][l])`; an out-of-range host
or level index raises (modelled as `none`).  `notify_add` instantiates `f`
with `(· + 1)` and `notify_remove` with `(· - 1)`. -/
def countsModify (c : Counts) (h l : Nat) (f : Int → Int) : Option Counts := do
  let row ← c.get? h
  let cell ← row.get? l
  if h < c.length ∧ l < row.length then
    some (c.set h (row.set l (f cell)))
  else none

/-! ### Render surface (`CursesLogPad`) -/

/-- State of the curses pad of log entries.  `lines` is the pad's backing
character store, one string per pad row (`rows` of them); `height` is the
screen height used by `refresh` and `scroll`; entries carry their identity
tag.  `refill_count` is pure instrumentation: it counts `_refill_pad` calls
and influences nothing. -/
structure PadState where
  rows : Nat
  height : Nat
  width : Nat
  first_allowed : Nat
  entries : List (Nat × Entry)
  next_line : Nat
  scroll_line : Option Int
  lines : List String
  refill_count : Nat
deriving DecidableEq

/-- `CursesLogPad.__init__` followed by its `clear()` call. -/
def padInit (rows height width : Nat) : PadState :=
  ⟨rows, height, width, 0, [], 0, none, List.replicate rows "", 0⟩

/-- `clear()`: erase the pad and reset all positions. -/
def PadState.clear (p : PadState) : PadState :=
  { p with lines := List.replicate p.rows "", next_line := 0, scroll_line := none,
           first_allowed := 0, entries := [] }

/-- Pads `s` on the right with spaces to width `n` (Python `'{:n}'` on a
string). -/
def padRight (s : String) (n : Nat) : String :=
  s ++ ⟨List.replicate (n - s.length) ' '⟩

/-- Pads `s` on the left with spaces to width `n` (Python `'{:>n}'`). -/
def padLeft (s : String) (n : Nat) : String :=
  ⟨List.replicate (n - s.length) ' '⟩ ++ s

/-- `Entry.display_string`: fixed-width prefix, optional braced tag, then
the message, capped at `length_limit` with a `>` continuation marker. -/
def Entry.display_string (e : Entry) (length_limit : Nat) : String :=
  let line := e.time ++ " " ++ padRight e.host 6 ++ " " ++ padLeft e.level.name 7
      ++ " " ++ padRight e.facility 8 ++ " "
  let line := if e.tag ≠ "" ∧ e.tag ≠ "kernel"
      then line ++ "\x7b" ++ e.tag ++ "\x7d " else line
  if line.length + e.msg.length > length_limit then
    line ++ pySliceTo e.msg ((length_limit : Int) - (line.length : Int) - 1) ++ ">"
  else line ++ e.msg

/-- curses `pad.addstr(y, 0, s, attr)`: writes row `y` of the backing
store; writing outside the pad raises `curses.error` (modelled as `none`).
Color attributes are not modelled. -/
def padAddstr (p : PadState) (y : Nat) (s : String) : Option PadState :=
  if y < p.rows then some { p with lines := p.lines.set y s } else none

/-- Writes the tail of the entry queue at successive rows starting at `y`
(the `zip` loop body of `_refill_pad`). -/
def padWriteAll (p : PadState) (y : Nat) : List (Nat × Entry) → Option PadState
  | [] => some p
  | te :: rest => do
    let p' ← padAddstr p y (te.2.display_string p.width)
    padWriteAll p' (y + 1) rest

/-- `_refill_pad`: clears scroll and `first_allowed`, erases the pad,
rewrites every queued entry from row 0, and sets `next_line` to the queue
length. -/
def PadState.refill_pad (p : PadState) : Option PadState := do
  let p := { p with scroll_line := none, first_allowed := 0,
                    lines := List.replicate p.rows "",
                    refill_count := p.refill_count + 1 }
  let p ← padWriteAll p 0 p.entries
  some { p with next_line := p.entries.length }

/-- `add_entry`: appends to the entry queue, then either refills (when
`next_line >= rows - 1`) or writes the new entry at `next_line`. -/
def PadState.add_entry (p : PadState) (te : Nat × Entry) : Option PadState :=
  let p := { p with entries := p.entries ++ [te] }
  if (p.next_line : Int) ≥ (p.rows : Int) - 1 then p.refill_pad
  else do
    let p' ← padAddstr p p.next_line (te.2.display_string p.width)
    some { p' with next_line := p'.next_line + 1 }

/-- `remove_entry`: pops the queue head only when the removed entry is
*identically* (`is`) the head; identity is the serial tag.  Subscripting an
empty deque raises `IndexError` (modelled as `none`).  On a pop, advances
`first_allowed` and clamps a stale scroll target up to it. -/
def PadState.remove_entry (p : PadState) (te : Nat × Entry) : Option PadState :=
  match p.entries with
  | [] => none
  | e0 :: rest =>
    if te.1 = e0.1 then
      let p := { p with entries := rest, first_allowed := p.first_allowed + 1 }
      match p.scroll_line with
      | some sl =>
        if sl < (p.first_allowed : Int) then
          some { p with scroll_line := some (p.first_allowed : Int) }
        else some p
      | none => some p
    else some p

/-- `scroll(num)`: enters scrolling at the latest position, or moves to the
median of `first_allowed`, the shifted target and the last scroll line
(Python sorts the triple and takes the middle element). -/
def PadState.scroll (p : PadState) (num : Int) : PadState :=
  let last_scroll_line : Int := max 0 ((p.next_line : Int) - (p.height : Int))
  match p.scroll_line with
  | none => { p with scroll_line := some last_scroll_line }
  | some sl =>
    let a := (p.first_allowed : Int)
    let b := sl + num
    let c := last_scroll_line
    { p with scroll_line := some (max (min a b) (min (max a b) c)) }

/-- `scroll_off()`: return to follow-latest. -/
def PadState.scroll_off (p : PadState) : PadState :=
  { p with scroll_line := none }

/-- `refresh()` top line: the explicit scroll target if set, else
`max(0, next_line - height)`. -/
def PadState.top_line (p : PadState) : Int :=
  p.scroll_line.getD (max 0 ((p.next_line : Int) - (p.height : Int)))

/-- The window painted by `refresh()`: pad rows
`[top_line, top_line + height)`; rows beyond the backing store show blank. -/
def PadState.displayed_window (p : PadState) : List String :=
  (List.range p.height).map fun i => p.lines.getD (p.top_line.toNat + i) ""

/-! ### The viewer (entry buffer, status panel counts, controller) -/

/-- Observable subscriber notifications emitted by `add_new_entry`, in
execution order: the panel count decrement and pad removal for an evicted
entry, then the panel count increment and (if visible) pad append for the
new entry. -/
inductive Event where
  | panelRemove (te : Nat × Entry)
  | padRemove (te : Nat × Entry)
  | panelAdd (te : Nat × Entry)
  | padAdd (te : Nat × Entry)
deriving DecidableEq

/-- Combined state of `LogViewer`: the entry deque (front oldest, each
entry carrying its allocation serial), the host registry, the visibility
state, the status panel count table and the log pad. -/
structure ViewerState where
  hosts : Hosts
  entries : List (Nat × Entry)
  nextId : Nat
  vis : Visibility
  counts : Counts
  pad : PadState
deriving DecidableEq

/-- `LogViewer.__init__` state (registry passed in; the source uses the
module-level `HOSTS`). -/
def viewerInit (hosts : Hosts) (rows height width : Nat) : ViewerState :=
  ⟨hosts, [], 0, visInit, countsInit, padInit rows height width⟩

/-- The `while len(self.entries) >= BUFFER_LENGTH` eviction loop of
`add_new_entry`: pops the oldest entry, decrements its panel count
(`notify_remove`) and notifies the pad, repeating until below capacity.
Returns the surviving deque, updated counts and pad, and the notification
trace. -/
def evictLoop : List (Nat × Entry) → Counts → PadState →
    Option (List (Nat × Entry) × Counts × PadState × List Event)
  | [], counts, pad =>
    if ([] : List (Nat × Entry)).length ≥ BUFFER_LENGTH then none
    else some ([], counts, pad, [])
  | removed :: rest, counts, pad =>
    if (removed :: rest).length ≥ BUFFER_LENGTH then do
      let counts' ← countsModify counts removed.2.host_idx removed.2.level.index (· - 1)
      let pad' ← pad.remove_entry removed
      let (es', c'', p'', evs) ← evictLoop rest counts' pad'
      some (es', c'', p'', Event.panelRemove removed :: Event.padRemove removed :: evs)
    else some (removed :: rest, counts, pad, [])

/-- `LogViewer.add_new_entry`: evict while at capacity, append the new
entry (allocating its identity serial), increment its panel count
(`notify_add`), and append it to the pad when currently visible. -/
def addNewEntry (st : ViewerState) (e : Entry) : Option (ViewerState × List Event) := do
  let (es, counts, pad, evs) ← evictLoop st.entries st.counts st.pad
  let te := (st.nextId, e)
  let es := es ++ [te]
  let counts ← countsModify counts e.host_idx e.level.index (· + 1)
  let b ← st.vis.is_entry_visible e
  let (pad, padEvs) ←
    if b then (pad.add_entry te).map fun p => (p, [Event.padAdd te])
    else some (pad, ([] : List Event))
  some ({ st with entries := es, counts := counts, pad := pad, nextId := st.nextId + 1 },
        evs ++ [Event.panelAdd te] ++ padEvs)

/-- Body of `repopulate_pad`'s loop: feed every currently visible buffered
entry back into the pad. -/
def repopAux (vis : Visibility) (pad : PadState) : List (Nat × Entry) → Option PadState
  | [] => some pad
  | te :: rest => do
    let b ← vis.is_entry_visible te.2
    let pad ← if b then pad.add_entry te else some pad
    repopAux vis pad rest

/-- `repopulate_pad`: clear the pad, then re-add the visible subset of the
entry buffer in order. -/
def repopulatePad (st : ViewerState) : Option ViewerState := do
  let pad ← repopAux st.vis st.pad.clear st.entries
  some { st with pad := pad }

/-- The key-to-command table (`COMMANDS`), key code to command name; the
help rows and texts play no part in dispatch and are omitted.  The digit
keys `1`..`9` map to exclusive-host commands and their shifted forms
`!@#$%^&*(` to toggle-host commands, exactly as the construction loop
builds them. -/
def COMMANDS : List (Nat × String) :=
  [(106, "SCROLL_DOWN"), (107, "SCROLL_UP"), (32, "SCROLL_STOP"),
   (48, "VIS_ALL_HOSTS"), (44, "VIS_LEVEL_UP"), (46, "VIS_LEVEL_DOWN"),
   (105, "INSERT_ERROR"), (63, "SHOW_HELP"),
   (49, "VIS_ONLY_HOST_1"), (33, "VIS_TOGGLE_HOST_1"),
   (50, "VIS_ONLY_HOST_2"), (64, "VIS_TOGGLE_HOST_2"),
   (51, "VIS_ONLY_HOST_3"), (35, "VIS_TOGGLE_HOST_3"),
   (52, "VIS_ONLY_HOST_4"), (36, "VIS_TOGGLE_HOST_4"),
   (53, "VIS_ONLY_HOST_5"), (37, "VIS_TOGGLE_HOST_5"),
   (54, "VIS_ONLY_HOST_6"), (94, "VIS_TOGGLE_HOST_6"),
   (55, "VIS_ONLY_HOST_7"), (38, "VIS_TOGGLE_HOST_7"),
   (56, "VIS_ONLY_HOST_8"), (42, "VIS_TOGGLE_HOST_8"),
   (57, "VIS_ONLY_HOST_9"), (40, "VIS_TOGGLE_HOST_9")]

/-- Dictionary lookup `COMMANDS[k][0]` (`none` models `KeyError`; the main
loop guards every call with `k in COMMANDS.keys()`). -/
def commandName (k : Nat) : Option String :=
  (COMMANDS.lookup k)

/-- Python `s.startswith(pre)`, implemented on the character lists so that
it evaluates by kernel reduction. -/
def strStartsWith (s pre : String) : Bool :=
  pre.data.isPrefixOf s.data

/-- `ord(command_name[-1]) - ord('1')`: the host index encoded in the last
character of a per-host command name. -/
def hostIndexOfCommand (name : String) : Int :=
  match name.data.getLast? with
  | some c => (c.toNat : Int) - ('1'.toNat : Int)
  | none => 0

/-- `handle_character`: dispatch on the command name.  Visibility commands
mutate the filter and then repopulate the pad (the panel repaint draws
only).  The final `else` branch — reached exactly by the `INSERT_ERROR`
binding, whose name matches no earlier test — synthesizes a control-error
entry through the normal ingestion path. -/
def handleCharacter (st : ViewerState) (now : String) (k : Nat) : Option ViewerState := do
  let name ← commandName k
  if strStartsWith name "VIS_" then do
    let vis ←
      if strStartsWith name "VIS_ONLY_HOST_" then st.vis.exclusive_host (hostIndexOfCommand name)
      else if strStartsWith name "VIS_TOGGLE_HOST_" then st.vis.toggle_host (hostIndexOfCommand name)
      else if name = "VIS_ALL_HOSTS" then some st.vis.set_all_hosts
      else if name = "VIS_LEVEL_UP" then some st.vis.increase_level
      else if name = "VIS_LEVEL_DOWN" then some st.vis.decrease_level
      else some st.vis
    repopulatePad { st with vis := vis }
  else if name = "SCROLL_UP" then some { st with pad := st.pad.scroll (-1) }
  else if name = "SCROLL_DOWN" then some { st with pad := st.pad.scroll 1 }
  else if name = "SCROLL_STOP" then some { st with pad := st.pad.scroll_off }
  else if name = "SHOW_HELP" then some st
  else do
    let (hosts', e?) := Entry.from_error_text st.hosts now "control"
        ("Unknown command " ++ toString k)
    let e ← e?
    let (st', _) ← addNewEntry { st with hosts := hosts' } e
    some st'

/-- One iteration of `LogViewer.main`'s loop: if a log line was available,
parse and ingest it; otherwise read one keypress and dispatch it only when
it is a key of the command table — any other keypress is dropped.  The
`subs` parameter is the abstracted `REPLACEMENTS` pipeline and `now` the
formatted wall-clock time used for synthetic entries. -/
def mainTick (subs : List (String → String)) (st : ViewerState) (now : String)
    (logLine : Option String) (k : Nat) : Option ViewerState :=
  match logLine with
  | some line => do
    let (hosts', e?) := Entry.from_log_line subs st.hosts now line
    let e ← e?
    let (st', _) ← addNewEntry { st with hosts := hosts' } e
    some st'
  | none =>
    if (commandName k).isSome then handleCharacter st now k else some st

/-- Operations considered by the render-surface/buffer invariants: a buffer
append (an entry arriving from the pipe) or a keyboard command processed on
a quiet tick. -/
inductive ViewerOp where
  | app (e : Entry)
  | cmd (now : String) (k : Nat)

/-- Step function over `ViewerOp` (the append discards the notification
trace). -/
def viewerStep (st : ViewerState) : ViewerOp → Option ViewerState
  | .app e => (addNewEntry st e).map (·.1)
  | .cmd now k => if (commandName k).isSome then handleCharacter st now k else some st

/-- Runs a sequence of operations from a state; `none` as soon as any
operation raises. -/
def viewerRun (st : ViewerState) : List ViewerOp → Option ViewerState
  | [] => some st
  | op :: ops => do
    let st' ← viewerStep st op
    viewerRun st' ops

/-- Folds `add_new_entry` over a list of raw entries (sequences of appends
with evictions). -/
def runAppends (st : ViewerState) : List Entry → Option ViewerState
  | [] => some st
  | e :: es => do
    let (st', _) ← addNewEntry st e
    runAppends st' es

/-- Sample entry used by the concrete witnesses below. -/
def eSample : Entry := ⟨"t", "ariel", 0, "daemon", ⟨6, "info"⟩, "", "m"⟩

/-- A viewer state exactly at buffer capacity (the sample entry replicated
`BUFFER_LENGTH` times, with the pad holding its visible head), used by the
concrete witnesses below. -/
def stFullSample : ViewerState :=
  { viewerInit hostsInit 100 20 80 with
    entries := List.replicate BUFFER_LENGTH (0, eSample),
    nextId := 1,
    pad := { padInit 100 20 80 with entries := [(0, eSample)] } }

/-! ### Health monitor -/

/-- Environment abstracting the external collaborators of `HealthMonitor`:
`checkOutput` models `subprocess.check_output` (with `none` for a
`CalledProcessError`, i.e. a non-zero exit) and `search` models
`re.search(regex, response)` returning the first capture group. -/
structure ProbeEnv where
  checkOutput : List String → Option String
  search : String → String → Option String

/-- `HealthMonitor._value_from_process_output`: a failed call yields
`"ERR"`, a response the pattern does not match yields `"N/K"`, otherwise
the extracted group. -/
def valueFromProcessOutput (env : ProbeEnv) (command_list : List String)
    (regex : String) : String :=
  match env.checkOutput command_list with
  | none => "ERR"
  | some response =>
    match env.search regex response with
    | some g => g
    | none => "N/K"

/-- Cached state of `HealthMonitor`; times are wall-clock seconds. -/
structure HealthMonitor where
  boot_time : Int
  uptime : String
  temperature : String
  home_used : String
  last_update : Int
deriving DecidableEq

/-- `HealthMonitor.update`: recomputes the uptime string (floor division,
as Python `timedelta` normalizes) and re-runs both external probes, then
stamps `last_update`. -/
def HealthMonitor.update (m : HealthMonitor) (env : ProbeEnv) (now : Int) : HealthMonitor :=
  let td := now - m.boot_time
  { m with
    uptime := toString (Int.fdiv td 86400) ++ "d "
        ++ toString (Int.fdiv (Int.fmod td 86400) 3600) ++ "h",
    temperature := valueFromProcessOutput env ["sensors"] "Core 0:\\s*\\+?([0-9.]*)" ++ "C",
    home_used := valueFromProcessOutput env ["df", "/home", "--output=pcent"] "(\\d+%)",
    last_update := now }

/-- `CursesStatusWin._draw_health`: on a tall enough panel, re-polls only
when more than `HEALTH_INTERVAL` seconds have elapsed since the last poll.
Returns the (possibly refreshed) monitor and the number of `update()`
invocations performed (0 or 1). -/
def drawHealth (env : ProbeEnv) (height : Nat) (m : HealthMonitor) (now : Int) :
    HealthMonitor × Nat :=
  if height ≥ MIN_PANEL_HEIGHT then
    if now > m.last_update + HEALTH_INTERVAL then (m.update env now, 1) else (m, 0)
  else (m, 0)

/-! ### Visibility operation sequences -/

/-- The complete set of `Visibility` mutators. -/
inductive VisOp where
  | increase
  | decrease
  | setAllLevels
  | toggle (i : Int)
  | exclusive (i : Int)
  | setAllHosts

/-- Applies one mutator (`none` models a raise). -/
def visApply (v : Visibility) : VisOp → Option Visibility
  | .increase => some v.increase_level
  | .decrease => some v.decrease_level
  | .setAllLevels => some v.set_all_levels
  | .toggle i => v.toggle_host i
  | .exclusive i => v.exclusive_host i
  | .setAllHosts => some v.set_all_hosts

/-- Runs a sequence of mutators from a state. -/
def visRun (v : Visibility) : List VisOp → Option Visibility
  | [] => some v
  | op :: ops => do visRun (← visApply v op) ops

/-- Folds `add_entry` over a list of tagged entries (a sequence of visible
arrivals fed to the render surface); `none` as soon as any write raises. -/
def padRunAdds (p : PadState) : List (Nat × Entry) → Option PadState
  | [] => some p
  | te :: rest => do
    let p' ← p.add_entry te
    padRunAdds p' rest

/-- Number of buffered entries with the given host index and level index
(the right-hand side of the count-consistency invariant). -/
def filterCount (es : List (Nat × Entry)) (h l : Nat) : Nat :=
  (es.filter fun te => te.2.host_idx == h && te.2.level.index == l).length

/-- Count-consistency invariant between the status panel table and the
entry deque: the table has its fixed 9 × 8 shape and every tracked cell
holds exactly the number of buffered entries with that (host, level). -/
def countsOK (c : Counts) (es : List (Nat × Entry)) : Prop :=
  c.length = HOST_INDEX_COUNT ∧
  (∀ row ∈ c, row.length = LEVELS.length) ∧
  ∀ h l, h < HOST_INDEX_COUNT → l < LEVELS.length →
    countsGet c h l = some ((filterCount es h l : Nat) : Int)

/-- Structural invariant tying the render surface to the entry buffer: the
buffered serial numbers strictly increase (so Python object identity is
decided by the tag), every serial is below the allocation counter, and the
pad holds exactly the visible subsequence of the buffer. -/
def viewerInv (s : ViewerState) : Prop :=
  List.Pairwise (fun a b => a.1 < b.1) s.entries ∧
  (∀ te ∈ s.entries, te.1 < s.nextId) ∧
  s.pad.entries = s.entries.filter fun te => visibleB s.vis te.2

/-! ## Theorems -/

/-! ### Helper lemmas about `Visibility` -/

lemma toggle_host_limit_eq {v w : Visibility} {i : Int}
    (h : v.toggle_host i = some w) : w.limit_level = v.limit_level := by
  unfold Visibility.toggle_host at h
  split at h
  · simp only [bind, Option.bind_eq_some] at h
    obtain ⟨b, _, l, _, hw⟩ := h
    cases hw; rfl
  · cases h; rfl

lemma exclusive_host_limit_eq {v w : Visibility} {i : Int}
    (h : v.exclusive_host i = some w) : w.limit_level = v.limit_level := by
  unfold Visibility.exclusive_host at h
  split at h
  · simp only [bind, Option.bind_eq_some] at h
    obtain ⟨l, _, hw⟩ := h
    cases hw; rfl
  · cases h; rfl

/-- One mutator keeps the severity limit within `[0, len(LEVELS) - 1]`. -/
lemma visApply_limit_clamped {v w : Visibility} {op : VisOp}
    (hv : 0 ≤ v.limit_level ∧ v.limit_level ≤ (LEVELS.length : Int) - 1)
    (h : visApply v op = some w) :
    0 ≤ w.limit_level ∧ w.limit_level ≤ (LEVELS.length : Int) - 1 := by
  cases op with
  | increase =>
    cases h
    dsimp only [Visibility.increase_level]
    omega
  | decrease =>
    cases h
    dsimp only [Visibility.decrease_level]
    omega
  | setAllLevels =>
    cases h
    dsimp only [Visibility.set_all_levels]
    omega
  | toggle i =>
    have := toggle_host_limit_eq h
    omega
  | exclusive i =>
    have := exclusive_host_limit_eq h
    omega
  | setAllHosts =>
    cases h
    dsimp only [Visibility.set_all_hosts]
    omega

lemma visRun_limit_clamped {v w : Visibility} {ops : List VisOp}
    (hv : 0 ≤ v.limit_level ∧ v.limit_level ≤ (LEVELS.length : Int) - 1)
    (h : visRun v ops = some w) :
    0 ≤ w.limit_level ∧ w.limit_level ≤ (LEVELS.length : Int) - 1 := by
  induction ops generalizing v with
  | nil => cases h; exact hv
  | cons op ops ih =>
    unfold visRun at h
    cases ha : visApply v op with
    | none => rw [ha] at h; simp at h
    | some v' =>
      rw [ha] at h
      simp only [bind, Option.some_bind] at h
      exact ih (visApply_limit_clamped hv ha) h

/-! ### C10 — severity-floor clamp invariant -/

/-- C10: for every sequence of `Visibility` operations (`increase_level`,
`decrease_level`, `set_all_levels` and all host operations), the severity
threshold `limit_level` stays within `[0, len(LEVELS) - 1]` (0..7), so the
floor never drops below 0 and rank-0 entries always pass the level filter. -/
theorem claim_C10_limit_level_clamped (ops : List VisOp) (v : Visibility)
    (h : visRun visInit ops = some v) :
    0 ≤ v.limit_level ∧ v.limit_level ≤ (LEVELS.length : Int) - 1 ∧
      v.is_level_visible 0 = true := by
  have hinit : 0 ≤ visInit.limit_level ∧
      visInit.limit_level ≤ (LEVELS.length : Int) - 1 := by decide
  have hc := visRun_limit_clamped hinit h
  refine ⟨hc.1, hc.2, ?_⟩
  simp only [Visibility.is_level_visible, decide_eq_true_eq]
  exact hc.1

/-- Witness for C10 at a concrete operation sequence. -/
theorem claim_C10_witness :
    ∃ v, visRun visInit [VisOp.increase, VisOp.toggle 2, VisOp.increase,
        VisOp.decrease, VisOp.exclusive 1] = some v ∧
      (0 ≤ v.limit_level ∧ v.limit_level ≤ (LEVELS.length : Int) - 1 ∧
        v.is_level_visible 0 = true) := by
  have h : (visRun visInit [VisOp.increase, VisOp.toggle 2, VisOp.increase,
      VisOp.decrease, VisOp.exclusive 1]).isSome := by decide
  exact ⟨_, (Option.some_get h).symm,
    claim_C10_limit_level_clamped _ _ (Option.some_get h).symm⟩

/-! ### C4 — out-of-range host indices -/

/-- C4: the claim states that no `Visibility` operation throws and that any
host index outside 0..8 is silently ignored.  The code's guard is
`host_index in range(HOST_INDEX_COUNT + 1)`, which admits index 9 even
though `host_index_visible` has only 9 slots, so `toggle_host(9)` and
`exclusive_host(9)` raise `IndexError` instead of being ignored, and
`is_host_visible`/`is_entry_visible` raise for any entry whose host index
is at or beyond the slot count.  This theorem evaluates the embedded code
at those failing inputs (`none` models the raise); indices 10 and −1 are,
as claimed, silently ignored. -/
theorem claim_C4_out_of_range_raises :
    visInit.toggle_host 9 = none ∧
    visInit.exclusive_host 9 = none ∧
    visInit.is_host_visible 9 = none ∧
    visInit.is_entry_visible ⟨"t", "x", 9, "f", ⟨0, "emerg"⟩, "", "m"⟩ = none ∧
    visInit.toggle_host 10 = some visInit ∧
    visInit.toggle_host (-1) = some visInit ∧
    visInit.exclusive_host 10 = some visInit := by
  decide

/-! ### C7 — basic filter scenario -/

/-- C7 counterexample: with all hosts visible, host A's entry at severity
rank 2 and host B's entry at rank 0, setting the threshold `limit_level`
to 1 does *not* make only A's entries visible — A's rank-2 entry is hidden
(2 ≤ 1 fails) while B's rank-0 entry is visible, the opposite of the
claimed outcome. -/
theorem claim_C7_counterexample :
    ({ visInit with limit_level := 1 } : Visibility).is_entry_visible
        ⟨"t", "ariel", 0, "f", ⟨2, "crit"⟩, "", "mA"⟩ = some false ∧
    ({ visInit with limit_level := 1 } : Visibility).is_entry_visible
        ⟨"t", "puck", 1, "f", ⟨0, "emerg"⟩, "", "mB"⟩ = some true := by
  decide

/-- C7 amended: `is_entry_visible` is host visibility conjoined with
`rank ≤ limit_level`, so with all hosts visible and threshold 1 only B's
rank-0 entry is visible and A's rank-2 entry is hidden; raising the
threshold to 2 makes both visible; the most restrictive reachable setting,
0, still shows B's rank-0 entry and hides A's; and the threshold cannot be
pushed below 0 (`increase_level` clamps at 0), so no setting hides both. -/
theorem claim_C7_filter_behaviour :
    (({ visInit with limit_level := 1 } : Visibility).is_entry_visible
        ⟨"t", "ariel", 0, "f", ⟨2, "crit"⟩, "", "mA"⟩ = some false ∧
     ({ visInit with limit_level := 1 } : Visibility).is_entry_visible
        ⟨"t", "puck", 1, "f", ⟨0, "emerg"⟩, "", "mB"⟩ = some true) ∧
    (({ visInit with limit_level := 2 } : Visibility).is_entry_visible
        ⟨"t", "ariel", 0, "f", ⟨2, "crit"⟩, "", "mA"⟩ = some true ∧
     ({ visInit with limit_level := 2 } : Visibility).is_entry_visible
        ⟨"t", "puck", 1, "f", ⟨0, "emerg"⟩, "", "mB"⟩ = some true) ∧
    (({ visInit with limit_level := 0 } : Visibility).is_entry_visible
        ⟨"t", "ariel", 0, "f", ⟨2, "crit"⟩, "", "mA"⟩ = some false ∧
     ({ visInit with limit_level := 0 } : Visibility).is_entry_visible
        ⟨"t", "puck", 1, "f", ⟨0, "emerg"⟩, "", "mB"⟩ = some true) ∧
    ({ visInit with limit_level := 0 } : Visibility).increase_level.limit_level = 0 := by
  decide

/-! ### Helper lemmas about the hosts registry and parser -/

lemma pyGet_natCast {α : Type} (l : List α) (n : Nat) :
    pyGet l (n : Int) = l.get? n := by
  simp [pyGet]

lemma listIndexOf_get? {name : String} :
    ∀ {l : List String} {i : Nat}, listIndexOf name l = some i → l.get? i = some name := by
  intro l
  induction l with
  | nil => intro i h; simp [listIndexOf] at h
  | cons x xs ih =>
    intro i h
    unfold listIndexOf at h
    split at h
    · cases h
      simp_all [List.get?]
    · obtain ⟨j, hj, hji⟩ := Option.map_eq_some'.mp h
      subst hji
      simpa [List.get?] using ih hj

/-- The index returned by `get_index` resolves, in the updated registry, to
the (renamed) host name. -/
lemma get_index_get? (h : Hosts) (raw : String) :
    ((h.get_index raw).1).list.get? (h.get_index raw).2 =
      some (applyHostReplacements raw) := by
  unfold Hosts.get_index
  dsimp only
  cases hi : listIndexOf (applyHostReplacements raw) h.list with
  | some i => exact listIndexOf_get? hi
  | none =>
    simp only [List.get?_eq_getElem?]
    exact List.getElem?_concat_length _ _

/-- `from_error_text` can never raise: the registered index always resolves
and level 0 exists. -/
lemma from_error_text_spec (hosts : Hosts) (now facility text : String) :
    Entry.from_error_text hosts now facility text =
      ((hosts.get_index "error").1,
        some ⟨now, "error", (hosts.get_index "error").2, facility, ⟨0, "emerg"⟩, "",
              "ERROR: " ++ text⟩) := by
  unfold Entry.from_error_text Entry.make
  have hg := get_index_get? hosts "error"
  simp only [applyHostReplacements, HOST_REPLACEMENTS, List.lookup] at hg
  simp only [pyGet_natCast, hg, bind, Option.some_bind]
  rfl

/-- Any line whose split does not have exactly eight fields takes the
synthetic-entry branch. -/
lemma from_log_line_ne8 (subs : List (String → String)) (hosts : Hosts)
    (now line : String) (h : (pySplit line '|' 9).length ≠ 8) :
    Entry.from_log_line subs hosts now line =
      Entry.from_error_text hosts now "parse" line := by
  unfold Entry.from_log_line
  rcases hs : pySplit line '|' 9 with
      _ | ⟨i0, _ | ⟨i1, _ | ⟨i2, _ | ⟨i3, _ | ⟨i4, _ | ⟨i5, _ | ⟨i6, _ | ⟨i7,
        _ | ⟨i8, rest⟩⟩⟩⟩⟩⟩⟩⟩⟩ <;>
    first
      | rfl
      | (rw [hs] at h; simp at h)

/-! ### C3 — parser robustness and field mapping -/

/-- C3: any input line whose `|`-split does not produce exactly eight
fields yields — without raising — the synthetic parse-error entry, with
facility `"parse"` and the raw line embedded in the message; a well-formed
eight-field line (one whose level field parses to an index resolving in
`LEVELS`) maps each field to the corresponding `Entry` attribute: time is
field 0 with its fourth character removed, the host index registers field
1, facility is field 3, the level is `LEVELS[int(field 4)]`, the tag is
field 6 with colons stripped, and the message is field 7, stripped, with
the substitution pipeline applied in declared order, each substitution to
the result of the previous one. -/
theorem claim_C3_parser_robustness (subs : List (String → String)) (hosts : Hosts)
    (now line : String) :
    ((pySplit line '|' 9).length ≠ 8 →
      Entry.from_log_line subs hosts now line =
        ((hosts.get_index "error").1,
          some ⟨now, "error", (hosts.get_index "error").2, "parse", ⟨0, "emerg"⟩, "",
                "ERROR: " ++ line⟩)) ∧
    (∀ i0 i1 i2 i3 i4 i5 i6 i7 (n : Int) (lvl : Level),
      pySplit line '|' 9 = [i0, i1, i2, i3, i4, i5, i6, i7] →
      pyInt? i4 = some n → pyGet LEVELS n = some lvl →
      Entry.from_log_line subs hosts now line =
        ((hosts.get_index i1).1,
          some ⟨pySliceTo i0 3 ++ pyDropFrom i0 4,
                applyHostReplacements i1,
                (hosts.get_index i1).2,
                i3, lvl, pyStripChars i6 ":",
                subs.foldl (fun m f => f m) (pyStrip i7)⟩)) := by
  constructor
  · intro h8
    rw [from_log_line_ne8 subs hosts now line h8, from_error_text_spec]
  · intro i0 i1 i2 i3 i4 i5 i6 i7 n lvl hs hn hl
    unfold Entry.from_log_line
    rw [hs]
    simp only [hn]
    unfold Entry.make
    rw [pyGet_natCast, get_index_get?, hl]
    simp only [bind, Option.some_bind]

/-- Witness for C3: a malformed line and a concrete well-formed line. -/
theorem claim_C3_witness :
    ((pySplit "bad raw line" '|' 9).length ≠ 8 ∧
      Entry.from_log_line [] hostsInit "NOW" "bad raw line" =
        ((hostsInit.get_index "error").1,
          some ⟨"NOW", "error", (hostsInit.get_index "error").2, "parse", ⟨0, "emerg"⟩, "",
                "ERROR: " ++ "bad raw line"⟩)) ∧
    (pySplit "OctX 1|puck.jsankey.com|3|daemon|6|info|tag:|  hi there\n" '|' 9 =
        ["OctX 1", "puck.jsankey.com", "3", "daemon", "6", "info", "tag:", "  hi there\n"] ∧
      Entry.from_log_line [] hostsInit "NOW"
          "OctX 1|puck.jsankey.com|3|daemon|6|info|tag:|  hi there\n" =
        ((hostsInit.get_index "puck.jsankey.com").1,
          some ⟨pySliceTo "OctX 1" 3 ++ pyDropFrom "OctX 1" 4,
                applyHostReplacements "puck.jsankey.com",
                (hostsInit.get_index "puck.jsankey.com").2,
                "daemon", ⟨6, "info"⟩, pyStripChars "tag:" ":",
                ([] : List (String → String)).foldl (fun m f => f m)
                  (pyStrip "  hi there\n")⟩)) := by
  constructor
  · exact ⟨by decide,
      (claim_C3_parser_robustness [] hostsInit "NOW" "bad raw line").1 (by decide)⟩
  · exact ⟨by decide,
      (claim_C3_parser_robustness [] hostsInit "NOW"
          "OctX 1|puck.jsankey.com|3|daemon|6|info|tag:|  hi there\n").2
        "OctX 1" "puck.jsankey.com" "3" "daemon" "6" "info" "tag:" "  hi there\n"
        6 ⟨6, "info"⟩ (by decide) (by decide) (by decide)⟩

/-! ### Helper lemmas about the eviction loop and `add_new_entry` -/

/-- A successful eviction loop returns a suffix of the deque that is
strictly below capacity. -/
lemma evictLoop_shape {es : List (Nat × Entry)} :
    ∀ {c : Counts} {p : PadState} {r}, evictLoop es c p = some r →
      r.1 <:+ es ∧ r.1.length < BUFFER_LENGTH := by
  induction es with
  | nil =>
    intro c p r h
    unfold evictLoop at h
    rw [if_neg (by decide)] at h
    cases h
    refine ⟨List.suffix_refl _, ?_⟩
    show ([] : List (Nat × Entry)).length < BUFFER_LENGTH
    decide
  | cons hd tl ih =>
    intro c p r h
    unfold evictLoop at h
    split at h
    · simp only [bind, Option.bind_eq_some] at h
      obtain ⟨c', _, h⟩ := h
      obtain ⟨p', _, h⟩ := h
      obtain ⟨r', hr', hrr⟩ := h
      obtain ⟨es', c'', p'', evs⟩ := r'
      cases hrr
      have hih := ih hr'
      exact ⟨hih.1.trans (List.suffix_cons hd tl), hih.2⟩
    · rename_i hlt
      cases h
      refine ⟨List.suffix_refl _, ?_⟩
      simp only [List.length_cons] at hlt ⊢
      omega

/-- Below capacity the eviction loop is the identity. -/
lemma evictLoop_below {es : List (Nat × Entry)} {c : Counts} {p : PadState}
    (h : es.length < BUFFER_LENGTH) : evictLoop es c p = some (es, c, p, []) := by
  cases es with
  | nil => unfold evictLoop; rw [if_neg (by decide)]
  | cons hd tl => unfold evictLoop; rw [if_neg (by omega)]

/-- At exactly full capacity the loop evicts exactly one entry — the deque
head — emitting the panel decrement before the pad removal. -/
lemma evictLoop_at_capacity {es : List (Nat × Entry)} {c : Counts} {p : PadState} {r}
    (hlen : es.length = BUFFER_LENGTH) (h : evictLoop es c p = some r) :
    ∃ removed rest c' p', es = removed :: rest ∧
      countsModify c removed.2.host_idx removed.2.level.index (· - 1) = some c' ∧
      p.remove_entry removed = some p' ∧
      r = (rest, c', p', [Event.panelRemove removed, Event.padRemove removed]) := by
  cases es with
  | nil => simp [BUFFER_LENGTH] at hlen
  | cons removed rest =>
    have hrest : rest.length + 1 = BUFFER_LENGTH := by simpa using hlen
    unfold evictLoop at h
    rw [if_pos (by simp only [List.length_cons]; omega)] at h
    simp only [bind, Option.bind_eq_some] at h
    obtain ⟨c', hc, h⟩ := h
    obtain ⟨p', hp, h⟩ := h
    obtain ⟨r', hr', hrr⟩ := h
    rw [evictLoop_below (by omega)] at hr'
    cases hr'
    cases hrr
    exact ⟨removed, rest, c', p', rfl, hc, hp, rfl⟩

/-- A successful `add_new_entry` appends the new entry, with its fresh
serial, after a below-capacity suffix of the previous deque. -/
lemma addNewEntry_shape {st : ViewerState} {e : Entry} {p : ViewerState × List Event}
    (h : addNewEntry st e = some p) :
    ∃ rest, rest <:+ st.entries ∧ rest.length < BUFFER_LENGTH ∧
      p.1.entries = rest ++ [(st.nextId, e)] ∧ p.1.nextId = st.nextId + 1 := by
  unfold addNewEntry at h
  simp only [bind, Option.bind_eq_some] at h
  obtain ⟨r, hr, h⟩ := h
  obtain ⟨es', c', p', evs⟩ := r
  simp only [bind, Option.bind_eq_some] at h
  obtain ⟨c2, _, h⟩ := h
  obtain ⟨b, _, h⟩ := h
  have hshape := evictLoop_shape hr
  cases b with
  | false =>
    simp only [Bool.false_eq_true, if_false, Option.some_bind] at h
    cases h
    exact ⟨es', hshape.1, hshape.2, rfl, rfl⟩
  | true =>
    simp only [if_true, Option.bind_eq_some, Option.map_eq_some'] at h
    obtain ⟨pp, ⟨padx, _, hpd⟩, hfin⟩ := h
    subst hpd
    cases hfin
    exact ⟨es', hshape.1, hshape.2, rfl, rfl⟩

/-! ### Helper lemmas for count consistency -/

lemma beq_pair_true (rh rl : Nat) : (rh == rh && rl == rl) = true := by
  simp

lemma beq_pair_false {rh h rl l : Nat} (hne : ¬(h = rh ∧ l = rl)) :
    (rh == h && rl == l) = false := by
  by_contra hb
  rw [Bool.not_eq_false, Bool.and_eq_true, beq_iff_eq, beq_iff_eq] at hb
  exact hne ⟨hb.1.symm, hb.2.symm⟩

lemma filterCount_cons (te : Nat × Entry) (es : List (Nat × Entry)) (h l : Nat) :
    filterCount (te :: es) h l = filterCount es h l +
      (if te.2.host_idx == h && te.2.level.index == l then 1 else 0) := by
  unfold filterCount
  rw [List.filter_cons]
  split
  · simp [Nat.add_comm]
  · simp

lemma filterCount_append_single (es : List (Nat × Entry)) (te : Nat × Entry) (h l : Nat) :
    filterCount (es ++ [te]) h l = filterCount es h l +
      (if te.2.host_idx == h && te.2.level.index == l then 1 else 0) := by
  unfold filterCount
  rw [List.filter_append, List.length_append]
  congr 1
  rw [List.filter_cons]
  split
  · simp
  · simp

/-- Anatomy of a successful in-place count update. -/
lemma countsModify_spec {c : Counts} {h l : Nat} {f : Int → Int} {c' : Counts}
    (hm : countsModify c h l f = some c') :
    ∃ row x, c.get? h = some row ∧ l < row.length ∧ h < c.length ∧
      countsGet c h l = some x ∧
      c'.length = c.length ∧
      (∀ row' ∈ c', row'.length = row.length ∨ row' ∈ c) ∧
      countsGet c' h l = some (f x) ∧
      (∀ h' l', ¬(h' = h ∧ l' = l) → countsGet c' h' l' = countsGet c h' l') := by
  unfold countsModify at hm
  simp only [bind, Option.bind_eq_some] at hm
  obtain ⟨row, hrow, hm⟩ := hm
  obtain ⟨x, hx, hm⟩ := hm
  split at hm
  · rename_i hcond
    cases hm
    refine ⟨row, x, hrow, hcond.2, hcond.1, ?_, List.length_set .., ?_, ?_, ?_⟩
    · unfold countsGet
      rw [hrow]
      simpa using hx
    · intro row' hmem
      rcases List.mem_or_eq_of_mem_set hmem with hin | heq
      · exact Or.inr hin
      · subst heq
        exact Or.inl (List.length_set ..)
    · unfold countsGet
      rw [List.get?_set_eq_of_lt _ hcond.1]
      simp only [bind, Option.some_bind]
      rw [List.get?_set_eq_of_lt _ hcond.2]
    · intro h' l' hne
      unfold countsGet
      by_cases hh : h' = h
      · subst hh
        rw [List.get?_set_eq_of_lt _ hcond.1, hrow]
        simp only [bind, Option.some_bind]
        have hl' : l' ≠ l := fun hc => hne ⟨rfl, hc⟩
        exact List.get?_set_ne _ _ (Ne.symm hl')
      · rw [List.get?_set_ne _ _ (Ne.symm hh)]
  · exact absurd hm (by simp)

/-- `notify_remove` for the deque head preserves count consistency. -/
lemma countsOK_remove {c : Counts} {removed : Nat × Entry} {es : List (Nat × Entry)}
    {c' : Counts} (hok : countsOK c (removed :: es))
    (hm : countsModify c removed.2.host_idx removed.2.level.index (· - 1) = some c') :
    countsOK c' es := by
  obtain ⟨hlen, hrows, hvals⟩ := hok
  obtain ⟨row, x, hrow, hlr, hlc, hgx, hlen', hrows', hdiag, hoff⟩ := countsModify_spec hm
  have hhost : removed.2.host_idx < HOST_INDEX_COUNT := hlen ▸ hlc
  have hrowlen : row.length = LEVELS.length := hrows row (List.get?_mem hrow)
  have hlev : removed.2.level.index < LEVELS.length := hrowlen ▸ hlr
  refine ⟨hlen'.trans hlen, ?_, ?_⟩
  · intro row' hmem
    rcases hrows' row' hmem with heq | hin
    · exact heq.trans hrowlen
    · exact hrows row' hin
  · intro h l hh hl
    by_cases hcase : h = removed.2.host_idx ∧ l = removed.2.level.index
    · obtain ⟨rfl, rfl⟩ := hcase
      have hx2 : x = ((filterCount (removed :: es) removed.2.host_idx
          removed.2.level.index : Nat) : Int) := by
        have hv := hvals _ _ hh hl
        rw [hgx] at hv
        exact Option.some.inj hv
      have hfc : filterCount (removed :: es) removed.2.host_idx removed.2.level.index =
          filterCount es removed.2.host_idx removed.2.level.index + 1 := by
        rw [filterCount_cons, beq_pair_true]
        simp
      rw [hdiag, hx2, hfc]
      congr 1
      push_cast
      ring
    · rw [hoff h l hcase, hvals h l hh hl]
      have hfc : filterCount (removed :: es) h l = filterCount es h l := by
        rw [filterCount_cons, beq_pair_false hcase]
        simp
      rw [hfc]

/-- `notify_add` for a newly appended entry preserves count consistency. -/
lemma countsOK_append {c : Counts} {es : List (Nat × Entry)} {c' : Counts}
    (idt : Nat) (e : Entry) (hok : countsOK c es)
    (hm : countsModify c e.host_idx e.level.index (· + 1) = some c') :
    countsOK c' (es ++ [(idt, e)]) := by
  obtain ⟨hlen, hrows, hvals⟩ := hok
  obtain ⟨row, x, hrow, hlr, hlc, hgx, hlen', hrows', hdiag, hoff⟩ := countsModify_spec hm
  have hhost : e.host_idx < HOST_INDEX_COUNT := hlen ▸ hlc
  have hrowlen : row.length = LEVELS.length := hrows row (List.get?_mem hrow)
  have hlev : e.level.index < LEVELS.length := hrowlen ▸ hlr
  refine ⟨hlen'.trans hlen, ?_, ?_⟩
  · intro row' hmem
    rcases hrows' row' hmem with heq | hin
    · exact heq.trans hrowlen
    · exact hrows row' hin
  · intro h l hh hl
    by_cases hcase : h = e.host_idx ∧ l = e.level.index
    · obtain ⟨rfl, rfl⟩ := hcase
      have hx2 : x = ((filterCount es e.host_idx e.level.index : Nat) : Int) := by
        have hv := hvals _ _ hh hl
        rw [hgx] at hv
        exact Option.some.inj hv
      have hfc : filterCount (es ++ [(idt, e)]) e.host_idx e.level.index =
          filterCount es e.host_idx e.level.index + 1 := by
        rw [filterCount_append_single, beq_pair_true]
        simp
      rw [hdiag, hx2, hfc]
      norm_cast
    · rw [hoff h l hcase, hvals h l hh hl]
      have hfc : filterCount (es ++ [(idt, e)]) h l = filterCount es h l := by
        rw [filterCount_append_single, beq_pair_false hcase]
        simp
      rw [hfc]

/-- The eviction loop preserves count consistency. -/
lemma evictLoop_countsOK {es : List (Nat × Entry)} :
    ∀ {c : Counts} {p : PadState} {r}, evictLoop es c p = some r →
      countsOK c es → countsOK r.2.1 r.1 := by
  induction es with
  | nil =>
    intro c p r h hok
    unfold evictLoop at h
    rw [if_neg (by decide)] at h
    cases h
    exact hok
  | cons hd tl ih =>
    intro c p r h hok
    unfold evictLoop at h
    split at h
    · simp only [bind, Option.bind_eq_some] at h
      obtain ⟨c', hc, h⟩ := h
      obtain ⟨p', _, h⟩ := h
      obtain ⟨r', hr', hrr⟩ := h
      obtain ⟨es', c'', p'', evs⟩ := r'
      cases hrr
      have hi := ih hr' (countsOK_remove hok hc)
      exact hi
    · cases h
      exact hok

/-- `add_new_entry` preserves count consistency. -/
lemma addNewEntry_countsOK {st : ViewerState} {e : Entry} {p : ViewerState × List Event}
    (h : addNewEntry st e = some p)
    (hok : countsOK st.counts st.entries) : countsOK p.1.counts p.1.entries := by
  unfold addNewEntry at h
  simp only [bind, Option.bind_eq_some] at h
  obtain ⟨r, hr, h⟩ := h
  obtain ⟨es', c', p', evs⟩ := r
  have hok' := evictLoop_countsOK hr hok
  simp only [bind, Option.bind_eq_some] at h
  obtain ⟨c2, hc2, h⟩ := h
  obtain ⟨b, _, h⟩ := h
  have hres := countsOK_append st.nextId e hok' hc2
  cases b with
  | false =>
    simp only [Bool.false_eq_true, if_false, Option.some_bind] at h
    cases h
    exact hres
  | true =>
    simp only [if_true, Option.bind_eq_some, Option.map_eq_some'] at h
    obtain ⟨pp, ⟨padx, _, hpd⟩, hfin⟩ := h
    subst hpd
    cases hfin
    exact hres

/-- The initial count table is consistent with the empty deque. -/
lemma countsOK_init : countsOK countsInit [] := by
  refine ⟨by decide, ?_, ?_⟩
  · intro row hmem
    rw [List.eq_of_mem_replicate hmem]
    decide
  · intro h l hh hl
    unfold countsGet countsInit
    rw [List.get?_eq_getElem?, List.getElem?_replicate_of_lt hh]
    simp only [bind, Option.some_bind]
    rw [List.get?_eq_getElem?, List.getElem?_replicate_of_lt hl]
    rfl

/-! ### C1 — count consistency -/

/-- C1: in every state reachable by any sequence of appends (with
evictions) from a fresh viewer, every tracked cell of the status panel's
count table equals the number of currently buffered entries with that host
index and level index. -/
theorem claim_C1_count_consistency (hosts0 : Hosts) (rows height width : Nat)
    (es : List Entry) (s : ViewerState)
    (h : runAppends (viewerInit hosts0 rows height width) es = some s) :
    ∀ hIdx lIdx, hIdx < HOST_INDEX_COUNT → lIdx < LEVELS.length →
      countsGet s.counts hIdx lIdx = some ((filterCount s.entries hIdx lIdx : Nat) : Int) := by
  suffices hgen : ∀ (es : List Entry) (st : ViewerState) (s : ViewerState),
      countsOK st.counts st.entries → runAppends st es = some s →
      countsOK s.counts s.entries by
    have hinit : countsOK (viewerInit hosts0 rows height width).counts
        (viewerInit hosts0 rows height width).entries := countsOK_init
    exact fun hIdx lIdx hh hl => (hgen es _ s hinit h).2.2 hIdx lIdx hh hl
  intro es
  induction es with
  | nil =>
    intro st s hok h
    unfold runAppends at h
    cases h
    exact hok
  | cons e rest ih =>
    intro st s hok h
    unfold runAppends at h
    simp only [bind, Option.bind_eq_some] at h
    obtain ⟨q, hq, h⟩ := h
    obtain ⟨st', evs⟩ := q
    exact ih st' s (addNewEntry_countsOK hq hok) h

/-- Witness for C1 at a concrete two-append run. -/
theorem claim_C1_witness :
    ∃ s, runAppends (viewerInit hostsInit 100 20 80) [eSample, eSample] = some s ∧
      countsGet s.counts 0 6 = some ((filterCount s.entries 0 6 : Nat) : Int) := by
  have hs : (runAppends (viewerInit hostsInit 100 20 80) [eSample, eSample]).isSome := by
    decide
  exact ⟨_, (Option.some_get hs).symm,
    claim_C1_count_consistency hostsInit 100 20 80 [eSample, eSample] _
      (Option.some_get hs).symm 0 6 (by decide) (by decide)⟩

/-! ### C2 — buffer bound and eviction order -/

/-- C2: after any successful `add_new_entry` the buffer holds at most
`BUFFER_LENGTH` (3000) entries — hence the bound holds after each append
of any sequence — and an append from a state exactly at capacity removes
precisely the oldest entry (the deque head), emitting its panel count
decrement and pad removal notification before the count increment (and
optional pad append) for the new entry. -/
theorem claim_C2_buffer_bound_and_eviction_order :
    (∀ (st : ViewerState) (e : Entry) (p : ViewerState × List Event),
      addNewEntry st e = some p → p.1.entries.length ≤ BUFFER_LENGTH) ∧
    (∀ (st : ViewerState) (e : Entry) (p : ViewerState × List Event),
      st.entries.length = BUFFER_LENGTH → addNewEntry st e = some p →
      ∃ removed rest, st.entries = removed :: rest ∧
        p.1.entries = rest ++ [(st.nextId, e)] ∧
        (p.2 = [Event.panelRemove removed, Event.padRemove removed,
                Event.panelAdd (st.nextId, e)] ∨
         p.2 = [Event.panelRemove removed, Event.padRemove removed,
                Event.panelAdd (st.nextId, e), Event.padAdd (st.nextId, e)])) := by
  constructor
  · intro st e p h
    obtain ⟨rest, _, hlen, hent, _⟩ := addNewEntry_shape h
    rw [hent]
    simp only [List.length_append, List.length_singleton]
    omega
  · intro st e p hlen h
    unfold addNewEntry at h
    simp only [bind, Option.bind_eq_some] at h
    obtain ⟨r, hr, h⟩ := h
    obtain ⟨removed, rest, c', p', hes, hc, hp, hrr⟩ := evictLoop_at_capacity hlen hr
    subst hrr
    simp only [bind, Option.bind_eq_some] at h
    obtain ⟨c2, _, h⟩ := h
    obtain ⟨b, _, h⟩ := h
    cases b with
    | false =>
      simp only [Bool.false_eq_true, if_false, Option.some_bind] at h
      cases h
      exact ⟨removed, rest, hes, rfl, Or.inl rfl⟩
    | true =>
      simp only [if_true, Option.bind_eq_some, Option.map_eq_some'] at h
      obtain ⟨pp, ⟨padx, _, hpd⟩, hfin⟩ := h
      subst hpd
      cases hfin
      exact ⟨removed, rest, hes, rfl, Or.inr rfl⟩

/-- Witness for C2: a concrete state exactly at capacity.  The 3000-entry
deque is handled through `List.replicate` lemmas rather than evaluation;
every remaining step of the append is shallow. -/
theorem claim_C2_witness :
    (∃ p, addNewEntry stFullSample eSample = some p ∧
      p.1.entries.length ≤ BUFFER_LENGTH) ∧
    (stFullSample.entries.length = BUFFER_LENGTH ∧
      ∃ p removed rest, addNewEntry stFullSample eSample = some p ∧
        stFullSample.entries = removed :: rest ∧
        p.1.entries = rest ++ [(stFullSample.nextId, eSample)] ∧
        (p.2 = [Event.panelRemove removed, Event.padRemove removed,
                Event.panelAdd (stFullSample.nextId, eSample)] ∨
         p.2 = [Event.panelRemove removed, Event.padRemove removed,
                Event.panelAdd (stFullSample.nextId, eSample),
                Event.padAdd (stFullSample.nextId, eSample)])) := by
  have hlen : stFullSample.entries.length = BUFFER_LENGTH := by
    show (List.replicate BUFFER_LENGTH ((0 : Nat), eSample)).length = BUFFER_LENGTH
    exact List.length_replicate _ _
  have hev : evictLoop stFullSample.entries stFullSample.counts stFullSample.pad =
      some (List.replicate 2999 ((0 : Nat), eSample),
            countsInit.set 0 ((List.replicate 8 (0 : Int)).set 6 (-1)),
            { padInit 100 20 80 with entries := [], first_allowed := 1 },
            [Event.panelRemove (0, eSample), Event.padRemove (0, eSample)]) := by
    rw [show stFullSample.entries = ((0 : Nat), eSample) :: List.replicate 2999 (0, eSample) by
      show List.replicate BUFFER_LENGTH ((0 : Nat), eSample) = _
      rw [show BUFFER_LENGTH = 2999 + 1 from rfl, List.replicate_succ]]
    unfold evictLoop
    rw [if_pos (by rw [List.length_cons, List.length_replicate]; decide)]
    simp only [bind]
    rw [show countsModify stFullSample.counts ((0 : Nat), eSample).2.host_idx
        ((0 : Nat), eSample).2.level.index (· - 1) =
        some (countsInit.set 0 ((List.replicate 8 (0 : Int)).set 6 (-1))) from by decide]
    simp only [Option.some_bind]
    rw [show PadState.remove_entry stFullSample.pad (0, eSample) =
        some { padInit 100 20 80 with entries := [], first_allowed := 1 } from by decide]
    simp only [Option.some_bind]
    rw [evictLoop_below (by rw [List.length_replicate]; decide)]
    rfl
  have hadd : ∃ p, addNewEntry stFullSample eSample = some p := by
    refine ⟨?_, ?_⟩
    · exact ({ stFullSample with
          entries := List.replicate 2999 (0, eSample) ++ [(1, eSample)],
          counts := countsInit,
          pad := { padInit 100 20 80 with
            entries := [(1, eSample)], first_allowed := 1, next_line := 1,
            lines := (List.replicate 100 "").set 0 (eSample.display_string 80) },
          nextId := 2 },
        [Event.panelRemove (0, eSample), Event.padRemove (0, eSample),
         Event.panelAdd (1, eSample), Event.padAdd (1, eSample)])
    · unfold addNewEntry
      rw [hev]
      rfl
  obtain ⟨p, hp⟩ := hadd
  refine ⟨⟨p, hp, claim_C2_buffer_bound_and_eviction_order.1 _ _ _ hp⟩, hlen, ?_⟩
  obtain ⟨removed, rest, h1, h2, h3⟩ :=
    claim_C2_buffer_bound_and_eviction_order.2 stFullSample eSample p hlen hp
  exact ⟨p, removed, rest, hp, h1, h2, h3⟩

/-! ### Helper lemmas about the render surface -/

/-- Writing a block of entries into the pad's backing store: succeeds when
the block fits, every other field is untouched, and the resulting rows are
characterized pointwise. -/
lemma padWriteAll_spec (es : List (Nat × Entry)) :
    ∀ (p : PadState) (y : Nat), y + es.length ≤ p.rows → p.lines.length = p.rows →
      ∃ p', padWriteAll p y es = some p' ∧
        p'.rows = p.rows ∧ p'.height = p.height ∧ p'.width = p.width ∧
        p'.entries = p.entries ∧ p'.next_line = p.next_line ∧
        p'.scroll_line = p.scroll_line ∧ p'.first_allowed = p.first_allowed ∧
        p'.refill_count = p.refill_count ∧ p'.lines.length = p.rows ∧
        (∀ i : Nat, p'.lines.get? i =
          if y ≤ i ∧ i < y + es.length then
            (es.get? (i - y)).map (fun te => te.2.display_string p.width)
          else p.lines.get? i) := by
  induction es with
  | nil =>
    intro p y hfit hlen
    refine ⟨p, rfl, rfl, rfl, rfl, rfl, rfl, rfl, rfl, rfl, hlen, ?_⟩
    intro i
    rw [if_neg (by simp only [List.length_nil]; omega)]
  | cons te rest ih =>
    intro p y hfit hlen
    have hy : y < p.rows := by
      simp only [List.length_cons] at hfit
      omega
    have hstep : padAddstr p y (te.2.display_string p.width) =
        some { p with lines := p.lines.set y (te.2.display_string p.width) } := by
      unfold padAddstr
      rw [if_pos hy]
    obtain ⟨p', hrun, h1, h2, h3, h4, h5, h6, h7, h8, h9, hchar⟩ :=
      ih { p with lines := p.lines.set y (te.2.display_string p.width) } (y + 1)
        (by dsimp only; simp only [List.length_cons] at hfit; omega)
        (by dsimp only; rw [List.length_set]; exact hlen)
    refine ⟨p', ?_, h1, h2, h3, h4, h5, h6, h7, h8, h9, ?_⟩
    · unfold padWriteAll
      rw [hstep]
      simpa [bind, Option.some_bind] using hrun
    · intro i
      rw [hchar i]
      by_cases hyi : i = y
      · subst hyi
        rw [if_neg (by omega), if_pos (by simp only [List.length_cons]; omega)]
        simp only [Nat.sub_self, List.get?_eq_getElem?]
        rw [List.getElem?_set_eq_of_lt _ (by omega)]
        simp
      · by_cases hin : y + 1 ≤ i ∧ i < y + 1 + rest.length
        · rw [if_pos hin, if_pos (by simp only [List.length_cons]; omega)]
          have hiy : i - y = (i - (y + 1)) + 1 := by omega
          rw [hiy]
          rfl
        · rw [if_neg hin, if_neg (by simp only [List.length_cons]; omega)]
          simp only [List.get?_eq_getElem?]
          rw [List.getElem?_set_ne (by omega)]

/-- Writing a block that overruns the backing store raises. -/
lemma padWriteAll_overflow (es : List (Nat × Entry)) :
    ∀ (p : PadState) (y : Nat), y ≤ p.rows → p.rows < y + es.length →
      padWriteAll p y es = none := by
  induction es with
  | nil =>
    intro p y hle hover
    simp only [List.length_nil, Nat.add_zero] at hover
    omega
  | cons te rest ih =>
    intro p y hle hover
    unfold padWriteAll
    by_cases hy : y < p.rows
    · have hstep : padAddstr p y (te.2.display_string p.width) =
          some { p with lines := p.lines.set y (te.2.display_string p.width) } := by
        unfold padAddstr
        rw [if_pos hy]
      rw [hstep]
      simp only [bind, Option.some_bind]
      exact ih _ (y + 1) (by dsimp only; omega)
        (by dsimp only; simp only [List.length_cons] at hover; omega)
    · have hstep : padAddstr p y (te.2.display_string p.width) = none := by
        unfold padAddstr
        rw [if_neg hy]
      rw [hstep]
      rfl

/-- A refill whose queue fits in the backing store: clears the scroll
target and the floor, renumbers `next_line`, rewrites every queued entry
from row 0 and counts one more refill. -/
lemma refill_pad_spec (p : PadState) (hfit : p.entries.length ≤ p.rows) :
    ∃ p', p.refill_pad = some p' ∧
      p'.rows = p.rows ∧ p'.height = p.height ∧ p'.width = p.width ∧
      p'.entries = p.entries ∧ p'.next_line = p.entries.length ∧
      p'.scroll_line = none ∧ p'.first_allowed = 0 ∧
      p'.refill_count = p.refill_count + 1 ∧ p'.lines.length = p.rows ∧
      (∀ i : Nat, p'.lines.get? i =
        if i < p.entries.length then
          (p.entries.get? i).map (fun te => te.2.display_string p.width)
        else (List.replicate p.rows "").get? i) := by
  obtain ⟨p', hrun, h1, h2, h3, h4, h5, h6, h7, h8, h9, hchar⟩ :=
    padWriteAll_spec
      (({ p with scroll_line := none, first_allowed := 0,
                 lines := List.replicate p.rows "",
                 refill_count := p.refill_count + 1 } : PadState).entries)
      { p with scroll_line := none, first_allowed := 0,
               lines := List.replicate p.rows "",
               refill_count := p.refill_count + 1 }
      0 (by dsimp only; simpa using hfit) (by dsimp only; simp)
  refine ⟨{ p' with next_line := p'.entries.length }, ?_, h1, h2, h3, h4, ?_, h6, h7, h8, h9, ?_⟩
  · unfold PadState.refill_pad
    dsimp only
    rw [hrun]
    rfl
  · show p'.entries.length = p.entries.length
    rw [h4]
  · intro i
    have hc := hchar i
    simp only [Nat.zero_add, Nat.zero_le, true_and, Nat.sub_zero] at hc
    exact hc

/-- A full run of visible appends that exactly fills the backing store:
each of the first `rows - 1` appends writes in place, the final one
triggers the single refill. -/
lemma padRunAdds_no_refill (es : List (Nat × Entry)) :
    ∀ (p : PadState), p.next_line + es.length + 1 ≤ p.rows → p.lines.length = p.rows →
      ∃ p', padRunAdds p es = some p' ∧
        p'.rows = p.rows ∧ p'.height = p.height ∧ p'.width = p.width ∧
        p'.entries = p.entries ++ es ∧ p'.next_line = p.next_line + es.length ∧
        p'.scroll_line = p.scroll_line ∧ p'.first_allowed = p.first_allowed ∧
        p'.refill_count = p.refill_count ∧ p'.lines.length = p.rows := by
  induction es with
  | nil =>
    intro p hfit hlen
    exact ⟨p, rfl, rfl, rfl, rfl, by simp, rfl, rfl, rfl, rfl, hlen⟩
  | cons te rest ih =>
    intro p hfit hlen
    simp only [List.length_cons] at hfit
    have hcond : ¬ ((p.next_line : Int) ≥ ({ p with entries := p.entries ++ [te] }.rows : Int) - 1) := by
      show ¬ ((p.next_line : Int) ≥ (p.rows : Int) - 1)
      omega
    have hstep : p.add_entry te = some
        { p with entries := p.entries ++ [te],
                 lines := p.lines.set p.next_line (te.2.display_string p.width),
                 next_line := p.next_line + 1 } := by
      unfold PadState.add_entry
      rw [if_neg hcond]
      have haddstr : padAddstr { p with entries := p.entries ++ [te] } p.next_line
          (te.2.display_string p.width) = some
          { p with entries := p.entries ++ [te],
                   lines := p.lines.set p.next_line (te.2.display_string p.width) } := by
        unfold padAddstr
        rw [if_pos (by omega)]
      rw [haddstr]
      rfl
    obtain ⟨p', hrun, h1, h2, h3, h4, h5, h6, h7, h8, h9⟩ :=
      ih { p with entries := p.entries ++ [te],
                  lines := p.lines.set p.next_line (te.2.display_string p.width),
                  next_line := p.next_line + 1 }
        (by dsimp only; omega)
        (by dsimp only; rw [List.length_set]; exact hlen)
    refine ⟨p', ?_, h1, h2, h3, ?_, ?_, h6, h7, h8, h9⟩
    · unfold padRunAdds
      rw [hstep]
      simpa [bind, Option.some_bind] using hrun
    · rw [h4]
      simp
    · rw [h5]
      dsimp only
      simp only [List.length_cons]
      omega

lemma padRunAdds_append (l1 l2 : List (Nat × Entry)) :
    ∀ p : PadState, padRunAdds p (l1 ++ l2) =
      (padRunAdds p l1).bind (fun q => padRunAdds q l2) := by
  induction l1 with
  | nil => intro p; rfl
  | cons te rest ih =>
    intro p
    show (do
        let p' ← p.add_entry te
        padRunAdds p' (rest ++ l2)) =
      ((do
        let p' ← p.add_entry te
        padRunAdds p' rest).bind fun q => padRunAdds q l2)
    cases p.add_entry te with
    | none => rfl
    | some p' =>
      simp only [bind, Option.some_bind]
      exact ih p'

/-- A refill whose queue overruns the backing store raises. -/
lemma refill_pad_overflow (q : PadState) (h : q.rows < q.entries.length) :
    q.refill_pad = none := by
  unfold PadState.refill_pad
  dsimp only
  rw [padWriteAll_overflow _ _ 0 (Nat.zero_le _) (by dsimp only; omega)]
  rfl

/-! ### C6 — refill scenario -/

/-- C6 counterexample: appending `rows + 5` visible entries to a pad whose
backing store has `rows` rows (here `rows = 4`, so 9 entries) does not
complete with a single refill: once `next_line` has reached `rows - 1`
every further append attempts a refill, and the second such refill must
write `rows + 1` entries into `rows` rows, so `addstr` raises and the run
aborts (after only 4 appends the pad has already refilled once). -/
theorem claim_C6_counterexample :
    padRunAdds (padInit 4 4 80) ((List.range 9).map fun i => (i, eSample)) = none ∧
    (padRunAdds (padInit 4 4 80) ((List.range 4).map fun i => (i, eSample))).map
      (fun p => p.refill_count) = some 1 := by
  decide

/-- C6 amended: appending exactly `rows` visible entries to a fresh pad of
backing capacity `rows` (and screen height `rows`) causes exactly one
refill — triggered by the `rows`-th append, when `next_line` reaches
`rows - 1` — which rebuilds the surface from the current entry deque,
clears the scroll target (follow-latest) and resets the earliest-allowed
line to 0; afterwards the displayed window shows all `rows` entries in
order.  Any further append attempts another refill, which overruns the
backing store and raises, so the original `rows + 5`-append scenario
cannot complete. -/
theorem claim_C6_refill_behaviour (rows width : Nat) (es : List (Nat × Entry))
    (hrows : 1 ≤ rows) (hlen : es.length = rows) :
    ∃ p, padRunAdds (padInit rows rows width) es = some p ∧
      p.refill_count = 1 ∧ p.scroll_line = none ∧ p.first_allowed = 0 ∧
      p.entries = es ∧ p.next_line = rows ∧
      p.displayed_window = es.map (fun te => te.2.display_string width) ∧
      (∀ te', p.add_entry te' = none) := by
  have hne : es ≠ [] := by
    intro hcon
    rw [hcon] at hlen
    simp at hlen
    omega
  have hsplit : es.dropLast ++ [es.getLast hne] = es := List.dropLast_concat_getLast hne
  have hdl : es.dropLast.length = rows - 1 := by
    rw [List.length_dropLast, hlen]
  -- phase 1: the first rows - 1 appends write in place
  obtain ⟨p1, hrun1, g1, g2, g3, g4, g5, g6, g7, g8, g9⟩ :=
    padRunAdds_no_refill es.dropLast (padInit rows rows width)
      (by show 0 + es.dropLast.length + 1 ≤ rows; omega)
      (by show (List.replicate rows "").length = rows; simp)
  have hp1rows : p1.rows = rows := g1
  have hp1next : p1.next_line = rows - 1 := by
    rw [g5]
    show 0 + es.dropLast.length = rows - 1
    omega
  have hp1entries : p1.entries = es.dropLast := by
    rw [g4]
    show ([] : List (Nat × Entry)) ++ es.dropLast = es.dropLast
    simp
  -- phase 2: the rows-th append triggers the refill
  have haugentries : ({ p1 with entries := p1.entries ++ [es.getLast hne] } : PadState).entries
      = es := by
    dsimp only
    rw [hp1entries, hsplit]
  obtain ⟨p2, href, f1, f2, f3, f4, f5, f6, f7, f8, f9, fchar⟩ :=
    refill_pad_spec { p1 with entries := p1.entries ++ [es.getLast hne] }
      (by rw [haugentries, hlen]; dsimp only; omega)
  have hstep2 : p1.add_entry (es.getLast hne) = some p2 := by
    unfold PadState.add_entry
    rw [if_pos (by dsimp only; rw [hp1rows, hp1next]; omega)]
    exact href
  have hrun : padRunAdds (padInit rows rows width) es = some p2 := by
    rw [← hsplit, padRunAdds_append, hrun1]
    simp only [Option.some_bind]
    show (do
        let p' ← p1.add_entry (es.getLast hne)
        padRunAdds p' []) = some p2
    rw [hstep2]
    rfl
  have hp2rows : p2.rows = rows := by rw [f1]; exact hp1rows
  have hp2height : p2.height = rows := by rw [f2]; exact g2
  have hp2width : p2.width = width := by rw [f3]; exact g3
  have hp2entries : p2.entries = es := by rw [f4]; exact haugentries
  have hp2next : p2.next_line = rows := by
    rw [f5, haugentries, hlen]
  have hp2refill : p2.refill_count = 1 := by
    rw [f8]
    dsimp only
    rw [g8]
    rfl
  refine ⟨p2, hrun, hp2refill, f6, f7, hp2entries, hp2next, ?_, ?_⟩
  · -- the displayed window after the refill
    unfold PadState.displayed_window PadState.top_line
    rw [f6, hp2height, hp2next]
    have htop : (Option.getD (none : Option Int) (max 0 ((rows : Int) - (rows : Int)))).toNat
        = 0 := by
      simp
    rw [htop]
    apply List.ext_getElem?
    intro n
    rw [List.getElem?_map, List.getElem?_map]
    by_cases hn : n < rows
    · rw [List.getElem?_range hn]
      have hnes : n < es.length := by omega
      rw [List.getElem?_eq_getElem hnes]
      have hw : ({ p1 with entries := p1.entries ++ [es.getLast hne] } : PadState).width
          = width := by
        dsimp only
        rw [g3]
        rfl
      have hc := fchar n
      rw [haugentries, hw, if_pos hnes] at hc
      have hget : es.get? n = some es[n] := by
        rw [List.get?_eq_getElem?, List.getElem?_eq_getElem hnes]
      rw [hget] at hc
      simp only [Option.map_some'] at hc
      simp only [Option.map_some', Nat.zero_add]
      rw [List.getD_eq_get?, hc]
      rfl
    · rw [List.getElem?_eq_none (by simpa using hn),
          List.getElem?_eq_none (by omega : es.length ≤ n)]
      rfl
  · -- any further append overruns the backing store
    intro te'
    unfold PadState.add_entry
    rw [if_pos (by dsimp only; rw [hp2rows, hp2next]; omega)]
    apply refill_pad_overflow
    dsimp only
    rw [hp2rows, hp2entries, List.length_append, hlen]
    simp

/-- Witness for C6 at `rows = 3`: three appends, one refill, all three
entries displayed, the fourth append raising. -/
theorem claim_C6_witness :
    ∃ p, padRunAdds (padInit 3 3 80) [(0, eSample), (1, eSample), (2, eSample)] = some p ∧
      p.refill_count = 1 ∧ p.scroll_line = none ∧ p.first_allowed = 0 ∧
      p.entries = [(0, eSample), (1, eSample), (2, eSample)] ∧ p.next_line = 3 ∧
      p.displayed_window = [(0, eSample), (1, eSample), (2, eSample)].map
        (fun te => te.2.display_string 80) ∧
      (∀ te', p.add_entry te' = none) :=
  claim_C6_refill_behaviour 3 80 [(0, eSample), (1, eSample), (2, eSample)]
    (by decide) (by decide)

/-! ### C8 — unrecognized keypress handling -/

/-- C8 counterexample: on a quiet tick (no log line), keypress 113 (the
letter q, which is not a key of the command table) leaves the viewer state
completely unchanged — no control-error entry is synthesized or appended,
the keypress is simply dropped by the `k in COMMANDS.keys()` guard of the
main loop. -/
theorem claim_C8_counterexample :
    mainTick [] (viewerInit hostsInit 100 20 80) "NOW" none 113 =
      some (viewerInit hostsInit 100 20 80) ∧
    (viewerInit hostsInit 100 20 80).entries = [] ∧
    commandName 113 = none := by
  decide

/-- C8 amended: a keypress that is not a key of the command table is
dropped unprocessed (the state is returned unchanged); the control-error
synthesis path exists but is reached by the recognized `INSERT_ERROR`
binding (key 105, the letter i), whose command name matches no dispatch
branch of `handle_character` and thus falls to the final `else`, appending
a control-error entry through the normal ingestion path. -/
theorem claim_C8_unknown_key_dispatch :
    (∀ (subs : List (String → String)) (st : ViewerState) (now : String) (k : Nat),
      commandName k = none → mainTick subs st now none k = some st) ∧
    (commandName 105 = some "INSERT_ERROR" ∧
     ∀ (subs : List (String → String)) (st : ViewerState) (now : String)
        (st' : ViewerState),
      mainTick subs st now none 105 = some st' →
      ∃ rest, rest <:+ st.entries ∧ rest.length < BUFFER_LENGTH ∧
        st'.entries = rest ++ [(st.nextId,
          ⟨now, "error", (st.hosts.get_index "error").2, "control", ⟨0, "emerg"⟩, "",
           "ERROR: Unknown command 105"⟩)]) := by
  constructor
  · intro subs st now k hk
    unfold mainTick
    rw [hk]
    rfl
  · refine ⟨rfl, ?_⟩
    intro subs st now st' h
    have h' : (do
        let (hosts', e?) := Entry.from_error_text st.hosts now "control"
            ("Unknown command " ++ toString 105)
        let e ← e?
        let (st'', _) ← addNewEntry { st with hosts := hosts' } e
        some st'') = some st' := h
    rw [from_error_text_spec] at h'
    simp only [bind, Option.some_bind, Option.bind_eq_some] at h'
    obtain ⟨p, hp, hfin⟩ := h'
    obtain ⟨st2, evs2⟩ := p
    cases hfin
    obtain ⟨rest, hsuf, hlen, hent, _⟩ := addNewEntry_shape hp
    exact ⟨rest, hsuf, hlen, hent⟩

/-- Witness for C8 at concrete keys and a concrete initial state. -/
theorem claim_C8_witness :
    (commandName 113 = none ∧
      mainTick [] (viewerInit hostsInit 100 20 80) "NOW" none 113 =
        some (viewerInit hostsInit 100 20 80)) ∧
    (∃ st', mainTick [] (viewerInit hostsInit 100 20 80) "NOW" none 105 = some st' ∧
      ∃ rest, rest <:+ (viewerInit hostsInit 100 20 80).entries ∧
        rest.length < BUFFER_LENGTH ∧
        st'.entries = rest ++ [((viewerInit hostsInit 100 20 80).nextId,
          ⟨"NOW", "error", ((viewerInit hostsInit 100 20 80).hosts.get_index "error").2,
           "control", ⟨0, "emerg"⟩, "", "ERROR: Unknown command 105"⟩)]) := by
  have hs : (mainTick [] (viewerInit hostsInit 100 20 80) "NOW" none 105).isSome := by
    decide
  exact ⟨⟨rfl, claim_C8_unknown_key_dispatch.1 [] _ "NOW" 113 rfl⟩,
    ⟨_, (Option.some_get hs).symm,
      claim_C8_unknown_key_dispatch.2.2 [] _ "NOW" _ (Option.some_get hs).symm⟩⟩

/-! ### Helper lemmas for ordering preservation -/

lemma visibleB_eq {v : Visibility} {e : Entry} {b : Bool}
    (h : v.is_entry_visible e = some b) : visibleB v e = b := by
  unfold visibleB
  rw [h]
  cases b <;> rfl

lemma padWriteAll_entries (es : List (Nat × Entry)) :
    ∀ {p : PadState} {y : Nat} {p'}, padWriteAll p y es = some p' →
      p'.entries = p.entries := by
  induction es with
  | nil =>
    intro p y p' h
    cases h
    rfl
  | cons te rest ih =>
    intro p y p' h
    unfold padWriteAll at h
    simp only [bind, Option.bind_eq_some] at h
    obtain ⟨q, hq, h⟩ := h
    have hqe : q.entries = p.entries := by
      unfold padAddstr at hq
      split at hq
      · cases hq; rfl
      · exact absurd hq (by simp)
    rw [ih h, hqe]

lemma refill_pad_entries {p p' : PadState} (h : p.refill_pad = some p') :
    p'.entries = p.entries := by
  unfold PadState.refill_pad at h
  dsimp only at h
  simp only [bind, Option.bind_eq_some] at h
  obtain ⟨q, hq, h⟩ := h
  cases h
  show q.entries = p.entries
  have hqe := padWriteAll_entries _ hq
  exact hqe

lemma add_entry_entries {p : PadState} {te : Nat × Entry} {p'}
    (h : p.add_entry te = some p') : p'.entries = p.entries ++ [te] := by
  unfold PadState.add_entry at h
  dsimp only at h
  split at h
  · rw [refill_pad_entries h]
  · simp only [bind, Option.bind_eq_some] at h
    obtain ⟨q, hq, h⟩ := h
    cases h
    show q.entries = p.entries ++ [te]
    unfold padAddstr at hq
    split at hq
    · cases hq; rfl
    · exact absurd hq (by simp)

lemma scroll_entries (p : PadState) (num : Int) : (p.scroll num).entries = p.entries := by
  unfold PadState.scroll
  split <;> rfl

lemma remove_entry_entries_match {p : PadState} {te e0 : Nat × Entry}
    {rest : List (Nat × Entry)} {p'}
    (hpe : p.entries = e0 :: rest) (hid : te.1 = e0.1)
    (h : p.remove_entry te = some p') : p'.entries = rest := by
  unfold PadState.remove_entry at h
  rw [hpe] at h
  dsimp only at h
  rw [if_pos hid] at h
  all_goals try split at h
  all_goals try split at h
  all_goals (cases h; rfl)

lemma remove_entry_entries_nomatch {p : PadState} {te e0 : Nat × Entry}
    {rest : List (Nat × Entry)} {p'}
    (hpe : p.entries = e0 :: rest) (hid : te.1 ≠ e0.1)
    (h : p.remove_entry te = some p') : p'.entries = p.entries := by
  unfold PadState.remove_entry at h
  rw [hpe] at h
  dsimp only at h
  rw [if_neg hid] at h
  cases h
  rfl

lemma repopAux_entries (es : List (Nat × Entry)) :
    ∀ {vis : Visibility} {pad : PadState} {pad'}, repopAux vis pad es = some pad' →
      pad'.entries = pad.entries ++ es.filter (fun te => visibleB vis te.2) := by
  induction es with
  | nil =>
    intro vis pad pad' h
    cases h
    simp
  | cons te rest ih =>
    intro vis pad pad' h
    unfold repopAux at h
    simp only [bind, Option.bind_eq_some] at h
    obtain ⟨b, hb, h⟩ := h
    rw [List.filter_cons, visibleB_eq hb]
    cases b with
    | false =>
      simp only [Bool.false_eq_true, if_false, Option.some_bind] at h ⊢
      rw [ih h]
    | true =>
      simp only [if_true, Option.bind_eq_some] at h ⊢
      obtain ⟨q, hq, h⟩ := h
      rw [ih h, add_entry_entries hq]
      simp

/-- The eviction loop keeps the pad equal to the visible subsequence of
the surviving deque, keeps the serials strictly increasing, and only keeps
entries that were already buffered. -/
lemma evictLoop_pad (vis : Visibility) {es : List (Nat × Entry)} :
    ∀ {c : Counts} {p : PadState} {r}, evictLoop es c p = some r →
      List.Pairwise (fun a b => a.1 < b.1) es →
      p.entries = es.filter (fun te => visibleB vis te.2) →
      r.2.2.1.entries = r.1.filter (fun te => visibleB vis te.2) ∧
      List.Pairwise (fun a b => a.1 < b.1) r.1 ∧
      (∀ te ∈ r.1, te ∈ es) := by
  induction es with
  | nil =>
    intro c p r h hpw hpad
    unfold evictLoop at h
    rw [if_neg (by decide)] at h
    cases h
    exact ⟨hpad, hpw, fun te hte => hte⟩
  | cons hd tl ih =>
    intro c p r h hpw hpad
    unfold evictLoop at h
    split at h
    · simp only [bind, Option.bind_eq_some] at h
      obtain ⟨c', _, h⟩ := h
      obtain ⟨p', hp, h⟩ := h
      obtain ⟨r', hr', hrr⟩ := h
      obtain ⟨es', c'', p'', evs⟩ := r'
      cases hrr
      have hpwtl := hpw.of_cons
      have hhd : ∀ e ∈ tl, hd.1 < e.1 := fun e he => List.rel_of_pairwise_cons hpw he
      rw [List.filter_cons] at hpad
      have hp'ent : p'.entries = tl.filter (fun te => visibleB vis te.2) := by
        cases hvb : visibleB vis hd.2 with
        | true =>
          rw [hvb] at hpad
          simp only [if_true] at hpad
          exact remove_entry_entries_match hpad rfl hp
        | false =>
          rw [hvb] at hpad
          simp only [Bool.false_eq_true, if_false] at hpad
          cases hfil : tl.filter (fun te => visibleB vis te.2) with
          | nil =>
            rw [hfil] at hpad
            unfold PadState.remove_entry at hp
            rw [hpad] at hp
            exact absurd hp (by simp)
          | cons e0 r0 =>
            have he0 : e0 ∈ tl := by
              have : e0 ∈ tl.filter (fun te => visibleB vis te.2) := by
                rw [hfil]
                exact List.mem_cons_self _ _
              exact List.mem_of_mem_filter this
            have hne : hd.1 ≠ e0.1 := Nat.ne_of_lt (hhd e0 he0)
            rw [remove_entry_entries_nomatch (hpad.trans hfil) hne hp, hpad, hfil]
      have hres := ih hr' hpwtl hp'ent
      exact ⟨hres.1, hres.2.1, fun te hte => List.mem_cons_of_mem hd (hres.2.2 te hte)⟩
    · cases h
      exact ⟨hpad, hpw, fun te hte => hte⟩

/-- `add_new_entry` preserves the pad/buffer invariant. -/
lemma addNewEntry_inv {st : ViewerState} {e : Entry} {p : ViewerState × List Event}
    (h : addNewEntry st e = some p) (hinv : viewerInv st) : viewerInv p.1 := by
  obtain ⟨hpw, hbound, hpad⟩ := hinv
  unfold addNewEntry at h
  simp only [bind, Option.bind_eq_some] at h
  obtain ⟨r, hr, h⟩ := h
  obtain ⟨es', c', p', evs⟩ := r
  obtain ⟨hpad', hpw', hmem⟩ := evictLoop_pad st.vis hr hpw hpad
  simp only [bind, Option.bind_eq_some] at h
  obtain ⟨c2, _, h⟩ := h
  obtain ⟨b, hb, h⟩ := h
  have hvb : visibleB st.vis e = b := visibleB_eq hb
  have hpwnew : List.Pairwise (fun a b => a.1 < b.1) (es' ++ [(st.nextId, e)]) := by
    rw [List.pairwise_append]
    refine ⟨hpw', List.pairwise_singleton .., ?_⟩
    intro a ha b' hb'
    rw [List.mem_singleton] at hb'
    subst hb'
    exact hbound a (hmem a ha)
  have hboundnew : ∀ te ∈ es' ++ [(st.nextId, e)], te.1 < st.nextId + 1 := by
    intro te hte
    rcases List.mem_append.mp hte with hin | hin
    · exact Nat.lt_succ_of_lt (hbound te (hmem te hin))
    · rw [List.mem_singleton] at hin
      subst hin
      exact Nat.lt_succ_self _
  cases b with
  | false =>
    simp only [Bool.false_eq_true, if_false, Option.some_bind] at h
    cases h
    refine ⟨hpwnew, hboundnew, ?_⟩
    show p'.entries = (es' ++ [(st.nextId, e)]).filter fun te => visibleB st.vis te.2
    rw [List.filter_append, hpad']
    simp [List.filter_cons, hvb]
  | true =>
    simp only [if_true, Option.bind_eq_some, Option.map_eq_some'] at h
    obtain ⟨pp, ⟨padx, hpx, hpd⟩, hfin⟩ := h
    subst hpd
    cases hfin
    refine ⟨hpwnew, hboundnew, ?_⟩
    show padx.entries = (es' ++ [(st.nextId, e)]).filter fun te => visibleB st.vis te.2
    rw [add_entry_entries hpx, hpad', List.filter_append]
    simp [List.filter_cons, hvb]

/-- `repopulate_pad` (re)establishes the pad/buffer invariant for whatever
visibility state is current. -/
lemma repopulatePad_inv {st st' : ViewerState}
    (h : repopulatePad st = some st')
    (hpw : List.Pairwise (fun a b => a.1 < b.1) st.entries)
    (hbound : ∀ te ∈ st.entries, te.1 < st.nextId) : viewerInv st' := by
  unfold repopulatePad at h
  simp only [bind, Option.bind_eq_some] at h
  obtain ⟨pad', hrep, h⟩ := h
  cases h
  refine ⟨hpw, hbound, ?_⟩
  show pad'.entries = st.entries.filter fun te => visibleB st.vis te.2
  rw [repopAux_entries _ hrep,
      show (PadState.clear st.pad).entries = [] from rfl, List.nil_append]

/-- Every keyboard command preserves the pad/buffer invariant. -/
lemma handleCharacter_inv {st : ViewerState} {now : String} {k : Nat} {st' : ViewerState}
    (h : handleCharacter st now k = some st') (hinv : viewerInv st) : viewerInv st' := by
  unfold handleCharacter at h
  simp only [bind, Option.bind_eq_some] at h
  obtain ⟨name, hname, h⟩ := h
  split at h
  · -- visibility commands: every dispatch shape ends in a repopulation
    all_goals try split at h
    all_goals try split at h
    all_goals try split at h
    all_goals try split at h
    all_goals try split at h
    all_goals try simp only [Option.bind_eq_some, Option.some_bind] at h
    all_goals
      first
        | exact repopulatePad_inv h hinv.1 hinv.2.1
        | (obtain ⟨vis', hvis, hrep⟩ := h
           exact repopulatePad_inv hrep hinv.1 hinv.2.1)
  · split at h
    · cases h
      refine ⟨hinv.1, hinv.2.1, ?_⟩
      show (st.pad.scroll (-1)).entries = _
      rw [scroll_entries]
      exact hinv.2.2
    · split at h
      · cases h
        refine ⟨hinv.1, hinv.2.1, ?_⟩
        show (st.pad.scroll 1).entries = _
        rw [scroll_entries]
        exact hinv.2.2
      · split at h
        · cases h
          exact ⟨hinv.1, hinv.2.1, hinv.2.2⟩
        · split at h
          · cases h
            exact hinv
          · rw [from_error_text_spec] at h
            dsimp only at h
            simp only [bind, Option.some_bind, Option.bind_eq_some] at h
            obtain ⟨q, hq, h⟩ := h
            obtain ⟨st2, evs2⟩ := q
            cases h
            exact addNewEntry_inv hq ⟨hinv.1, hinv.2.1, hinv.2.2⟩

lemma viewerStep_inv {st : ViewerState} {op : ViewerOp} {st' : ViewerState}
    (h : viewerStep st op = some st') (hinv : viewerInv st) : viewerInv st' := by
  cases op with
  | app e =>
    simp only [viewerStep, Option.map_eq_some'] at h
    obtain ⟨p, hp, hq⟩ := h
    subst hq
    exact addNewEntry_inv hp hinv
  | cmd now k =>
    simp only [viewerStep] at h
    split at h
    · exact handleCharacter_inv h hinv
    · cases h
      exact hinv

/-! ### C5 — ordering preservation -/

/-- C5: after any sequence of buffer appends (with evictions) and keyboard
commands (visibility changes perform a full pad repopulation; refills
happen inside the pad appends), the render surface holds exactly the
subsequence of the entry buffer — oldest to newest — that passes the
current visibility filter, in the buffer's relative order. -/
theorem claim_C5_ordering_preservation (hosts0 : Hosts) (rows height width : Nat)
    (ops : List ViewerOp) (s : ViewerState)
    (h : viewerRun (viewerInit hosts0 rows height width) ops = some s) :
    s.pad.entries = s.entries.filter fun te => visibleB s.vis te.2 := by
  suffices hrun : ∀ (ops : List ViewerOp) (st s : ViewerState), viewerInv st →
      viewerRun st ops = some s → viewerInv s by
    exact (hrun ops _ s
      ⟨List.Pairwise.nil, fun te hte => absurd hte (List.not_mem_nil te), rfl⟩ h).2.2
  intro ops
  induction ops with
  | nil =>
    intro st s hinv hh
    cases hh
    exact hinv
  | cons op rest ih =>
    intro st s hinv hh
    unfold viewerRun at hh
    simp only [bind, Option.bind_eq_some] at hh
    obtain ⟨st1, h1, hh⟩ := hh
    exact ih st1 s (viewerStep_inv h1 hinv) hh

/-- Witness for C5: a concrete run with an append, a severity change, a
second append and a host toggle (each command repopulating the pad). -/
theorem claim_C5_witness :
    ∃ s, viewerRun (viewerInit hostsInit 30 10 80)
        [ViewerOp.app eSample, ViewerOp.cmd "N" 44, ViewerOp.app eSample,
         ViewerOp.cmd "N" 33] = some s ∧
      s.pad.entries = s.entries.filter fun te => visibleB s.vis te.2 := by
  have hs : (viewerRun (viewerInit hostsInit 30 10 80)
      [ViewerOp.app eSample, ViewerOp.cmd "N" 44, ViewerOp.app eSample,
       ViewerOp.cmd "N" 33]).isSome := by decide
  exact ⟨_, (Option.some_get hs).symm,
    claim_C5_ordering_preservation hostsInit 30 10 80 _ _ (Option.some_get hs).symm⟩

/-! ### C9 — health monitor caching and fallback -/

/-- C9: a `_draw_health` refresh within `HEALTH_INTERVAL` seconds of the
last poll returns the cached values unchanged with zero probe cycles; a
refresh after the interval has elapsed runs exactly one `update()` cycle
and restamps `last_update` (so an immediately following refresh is again
cached); a probe whose external command fails yields the placeholder
`"ERR"`, and one whose output does not match the extraction pattern yields
`"N/K"`, with no failure propagated. -/
theorem claim_C9_health_caching_and_fallback :
    (∀ (env : ProbeEnv) (height : Nat) (m : HealthMonitor) (now : Int),
      now ≤ m.last_update + HEALTH_INTERVAL → drawHealth env height m now = (m, 0)) ∧
    (∀ (env : ProbeEnv) (height : Nat) (m : HealthMonitor) (now : Int),
      MIN_PANEL_HEIGHT ≤ height → m.last_update + HEALTH_INTERVAL < now →
      drawHealth env height m now = (m.update env now, 1) ∧
        (m.update env now).last_update = now) ∧
    (∀ (env : ProbeEnv) (cmd : List String) (regex : String),
      env.checkOutput cmd = none → valueFromProcessOutput env cmd regex = "ERR") ∧
    (∀ (env : ProbeEnv) (cmd : List String) (regex out : String),
      env.checkOutput cmd = some out → env.search regex out = none →
      valueFromProcessOutput env cmd regex = "N/K") := by
  refine ⟨?_, ?_, ?_, ?_⟩
  · intro env height m now hle
    unfold drawHealth
    have : ¬ (now > m.last_update + HEALTH_INTERVAL) := by omega
    simp [this]
  · intro env height m now hh hlt
    unfold drawHealth
    rw [if_pos hh, if_pos hlt]
    exact ⟨rfl, rfl⟩
  · intro env cmd regex hnone
    simp [valueFromProcessOutput, hnone]
  · intro env cmd regex out hok hmiss
    simp [valueFromProcessOutput, hok, hmiss]

/-- Witness for C9 at a concrete environment, monitor and clock values. -/
theorem claim_C9_witness :
    ((10 : Int) ≤ 0 + HEALTH_INTERVAL ∧
      drawHealth ⟨fun _ => none, fun _ _ => none⟩ 40 ⟨0, "u", "t", "d", 0⟩ 10 =
        (⟨0, "u", "t", "d", 0⟩, 0)) ∧
    (MIN_PANEL_HEIGHT ≤ 40 ∧ (0 : Int) + HEALTH_INTERVAL < 16 ∧
      (drawHealth ⟨fun _ => none, fun _ _ => none⟩ 40 ⟨0, "u", "t", "d", 0⟩ 16).2 = 1) ∧
    valueFromProcessOutput ⟨fun _ => none, fun _ _ => none⟩ ["sensors"] "r" = "ERR" ∧
    valueFromProcessOutput ⟨fun _ => some "out", fun _ _ => none⟩ ["sensors"] "r" = "N/K" := by
  have h := claim_C9_health_caching_and_fallback
  refine ⟨⟨by decide, h.1 _ _ _ _ (by decide)⟩,
          ⟨by decide, by decide, ?_⟩,
          h.2.2.1 ⟨fun _ => none, fun _ _ => none⟩ ["sensors"] "r" rfl,
          h.2.2.2 ⟨fun _ => some "out", fun _ _ => none⟩ ["sensors"] "r" "out" rfl rfl⟩
  rw [(h.2.1 ⟨fun _ => none, fun _ _ => none⟩ 40 ⟨0, "u", "t", "d", 0⟩ 16
      (by decide) (by decide)).1]

